import Mathlib

/-! oragono: reply encoder, name registries and inbound pump.

A shallow embedding of `irc/reply.go`, `irc/types.go` and the method
`readLines` of `irc/socket.go`.

* A Go `string` is a sequence of bytes; `len` counts bytes and `+` is append.
* A Go `int` is an `Int`. The only arithmetic is on lengths of strings held in
  memory, whose sums stay far below `2^63`, so no wrap-around is modelled.
* A Go pointer is `Ptr`: `nil` or the address of a struct in a heap. Reading a
  field through `nil`, indexing or slicing out of range are panics, and a
  function that can panic returns `Option`, `none` being the panic.
* Methods on `*Client`, `*Channel`, `*Server` whose bodies live in other files
  are represented by the value they return, as a field written with the
  method's name (`Id`, `Nick`, `Nicks`).
* A Go map is one made by `make`: a function from keys to `Option`, `none` for
  an absent key.
* A channel is represented by the sequence of values sent on it; blocking and
  scheduling are not represented.
-/

namespace Irc

/-! ## Strings and the `fmt`/`strings` library functions the code calls -/

/-- A Go string: an immutable sequence of bytes. -/
abbrev GoString := List UInt8

/-- A Go string literal: the UTF-8 bytes of its text. -/
def lit (s : String) : GoString := s.toUTF8.data.toList

/-- The builtin `len`, as a Go int. -/
def len {α : Type} (xs : List α) : Int := (xs.length : Int)

/-- Library `strings.Join(elems, sep)`: the elements with `sep` between each
consecutive pair. -/
def Join : List GoString → GoString → GoString
  | [], _ => []
  | [a], _ => a
  | a :: b :: rest, sep => a ++ sep ++ Join (b :: rest) sep

/-- Output of `fmt` for a verb that has no operand left: `%!v(MISSING)`. -/
def missingArg (verb : UInt8) : GoString :=
  lit "%!" ++ [verb] ++ lit "(MISSING)"

/-- Output of `fmt` for a verb that is not defined on a string operand:
`%!v(string=operand)`. -/
def badVerb (verb : UInt8) (arg : GoString) : GoString :=
  lit "%!" ++ [verb] ++ lit "(string=" ++ arg ++ lit ")"

/-- Output of `fmt` for operands left over once the format is exhausted:
`%!(EXTRA string=a, string=b)`; nothing when none is left. -/
def extraArgs : List GoString → GoString
  | [] => []
  | a :: args =>
    lit "%!(EXTRA " ++ Join ((a :: args).map (fun x => lit "string=" ++ x)) (lit ", ") ++ lit ")"

/-- Library `fmt.Sprintf(format, args...)` for string operands. An operand that
implements `String()` (a `Numeric`) is passed as the string that method returns,
which is what `fmt` prints for it under `%s`.

The directives of `fmt` modelled exactly are the ones the formats of `reply.go`
and `types.go` are built from: ordinary bytes (copied), `%s` and `%v` (the
operand, verbatim), `%%` (a percent sign), a lone `%` that ends the format
(`%!(NOVERB)`), a verb without operand (`%!v(MISSING)`) and operands without
verb (`%!(EXTRA ...)`). Any other byte after `%` is rendered as a verb that is
undefined for strings; flags, widths, precisions, argument indexes and the
string verbs `q`, `x`, `X`, `T` are not modelled (`%03d` is modelled apart, in
`Numeric.String`). -/
def Sprintf : GoString → List GoString → GoString
  | [], args => extraArgs args
  | b :: rest, args =>
    if b ≠ 37 then b :: Sprintf rest args
    else
      match rest, args with
      | [], args => lit "%!(NOVERB)" ++ extraArgs args
      | verb :: rest, [] =>
        if verb = 37 then 37 :: Sprintf rest []
        else missingArg verb ++ Sprintf rest []
      | verb :: rest, a :: args =>
        if verb = 37 then 37 :: Sprintf rest (a :: args)
        else if verb = 115 ∨ verb = 118 then a ++ Sprintf rest args
        else badVerb verb a ++ Sprintf rest args

/-! ## `types.go`: numerics -/

/-- The type `Numeric` (`type Numeric uint`). -/
abbrev Numeric := Nat

/-- The method `Numeric.String`: `fmt.Sprintf("%03d", code)`, the decimal digits
of `code`, padded on the left with `0` up to a minimum width of three. -/
def Numeric.String (code : Numeric) : GoString :=
  let digits := lit (Nat.repr code)
  List.replicate (3 - digits.length) 48 ++ digits

/-- Modelled from the spec: the constant `RPL_NAMREPLY`, declared outside the
files under study; the names-list line carries the code 353. -/
def RPL_NAMREPLY : Numeric := 353

/-- Modelled from the spec: the constant `RPL_ENDOFNAMES`, declared outside the
files under study; the names-terminator line carries the code 366. -/
def RPL_ENDOFNAMES : Numeric := 366

/-- Modelled from the spec: the constant `ERR_NICKNAMEINUSE`, declared outside
the files under study; the spec's scenario gives the code 433. -/
def ERR_NICKNAMEINUSE : Numeric := 433

/-! ## Entities -/

/-- The interface `Identifier`: what `Id()` and `Nick()` return. -/
structure Identifier where
  Id : GoString
  Nick : GoString

/-- A `Server` as the encoder reads it: its `name` field and what its
`Identifier` methods return. -/
structure Server where
  name : GoString
  Id : GoString
  Nick : GoString

/-- A `Client` as the code reads it: the field `nick` (the registry key) and
what its `Identifier` methods return. -/
structure Client where
  nick : GoString
  Id : GoString
  Nick : GoString

/-- A `Channel` as the code reads it: the fields `name` and `server`, what
`Nicks()` returns, and what its `Identifier` methods return. -/
structure Channel where
  name : GoString
  server : Server
  Nicks : List GoString
  Id : GoString
  Nick : GoString

/-- A `*Server` used as an `Identifier`. -/
def Server.toIdentifier (s : Server) : Identifier := ⟨s.Id, s.Nick⟩

/-- A `*Client` used as an `Identifier`. -/
def Client.toIdentifier (c : Client) : Identifier := ⟨c.Id, c.Nick⟩

/-- A `*Channel` used as an `Identifier`. -/
def Channel.toIdentifier (c : Channel) : Identifier := ⟨c.Id, c.Nick⟩

/-- Modelled from the spec: the method `Client.HasNick`, whose body is outside
the files under study; a client has a nickname when the one it carries is not
empty ("a client can only be added once it already carries a non-empty
nickname"). -/
def Client.HasNick (client : Client) : Bool := decide (client.nick ≠ [])

/-! ## `reply.go` -/

/-- The function `joinedLen`. -/
def joinedLen (names : List GoString) : Int :=
  names.foldl (fun l name => l + len name) (len names - 1)

/-- The struct `BaseReply`; `source` is `none` for the nil interface. -/
structure BaseReply where
  id : GoString
  message : GoString
  source : Option Identifier

/-- The method `BaseReply.SetSource`. -/
def BaseReply.SetSource (reply : BaseReply) (source : Identifier) : BaseReply :=
  { reply with id := source.Id, source := some source }

/-- The method `BaseReply.Source`. -/
def BaseReply.Source (reply : BaseReply) : Option Identifier := reply.source

/-- The struct `NumericReply`. -/
structure NumericReply extends BaseReply where
  code : Numeric

/-- The function `NewNumericReply`. -/
def NewNumericReply (source : Identifier) (code : Numeric) (format : GoString)
    (args : List GoString) : NumericReply :=
  let reply : NumericReply := { id := [], message := [], source := none, code := code }
  let reply : NumericReply := { reply with toBaseReply := reply.toBaseReply.SetSource source }
  { reply with message := Sprintf format args }

/-- The method `NumericReply.Format`. -/
def NumericReply.Format (reply : NumericReply) (client : Client) : List GoString :=
  let message := Sprintf (lit ":%s %s %s %s")
    [reply.id, Numeric.String reply.code, client.Nick, reply.message]
  [message]

/-- The function `RplNamReply`. -/
def RplNamReply (channel : Channel) (names : List GoString) : NumericReply :=
  NewNumericReply channel.server.toIdentifier RPL_NAMREPLY (lit "= %s :%s")
    [channel.name, Join names (lit " ")]

/-- The function `RplEndOfNames`. -/
def RplEndOfNames (channel : Channel) : NumericReply :=
  NewNumericReply channel.server.toIdentifier RPL_ENDOFNAMES (lit "%s :End of NAMES list")
    [channel.name]

/-- The function `ErrNickNameInUse`. -/
def ErrNickNameInUse (source : Identifier) (nick : GoString) : NumericReply :=
  NewNumericReply source ERR_NICKNAMEINUSE (lit "%s :Nickname is already in use") [nick]

/-- The struct `NamesReply`. -/
structure NamesReply extends BaseReply where
  channel : Channel

/-- The function `NewNamesReply`. -/
def NewNamesReply (channel : Channel) : NamesReply :=
  let reply : NamesReply := { id := [], message := [], source := none, channel := channel }
  { reply with toBaseReply := reply.toBaseReply.SetSource channel.toIdentifier }

/-- The slice expression `xs[lo:hi]`; `none` is the out-of-range panic. The
capacity of `xs` is taken to be its length, the strictest bound Go can apply. -/
def slice {α : Type} (xs : List α) (lo hi : Int) : Option (List α) :=
  if 0 ≤ lo ∧ lo ≤ hi ∧ hi ≤ len xs then some ((xs.drop lo.toNat).take (hi - lo).toNat)
  else none

/-- The closure `tooLong` of `NamesReply.Format`; `MAX_REPLY_LEN` is a constant
declared outside the files under study, taken as a parameter. -/
def tooLong (MAX_REPLY_LEN baseLen : Int) (names : List GoString) : Bool :=
  decide (baseLen + joinedLen names > MAX_REPLY_LEN)

/-- The `for to < len(nicks)` loop of `NamesReply.Format`, from the state
`(from, to, lines)`; it returns the state in which the loop exits. -/
def namesLoop (MAX_REPLY_LEN : Int) (channel : Channel) (client : Client) (baseLen : Int)
    (nicks : List GoString) (from_ to_ : Int) (lines : List GoString) :
    Option (Int × Int × List GoString) :=
  if to_ < len nicks then
    if from_ < to_ - 1 then
      match slice nicks from_ to_ with
      | none => none
      | some window =>
        if tooLong MAX_REPLY_LEN baseLen window then
          match slice nicks from_ (to_ - 1) with
          | none => none
          | some batch =>
            namesLoop MAX_REPLY_LEN channel client baseLen nicks (to_ - 1) to_
              (lines ++ (RplNamReply channel batch).Format client)
        else
          namesLoop MAX_REPLY_LEN channel client baseLen nicks from_ (to_ + 1) lines
    else
      namesLoop MAX_REPLY_LEN channel client baseLen nicks from_ (to_ + 1) lines
  else some (from_, to_, lines)
termination_by (2 * (len nicks - to_) + (if from_ < to_ - 1 then 1 else 0)).toNat
decreasing_by
  all_goals simp_wf
  all_goals split <;> omega

/-- The method `NamesReply.Format`; `none` is the panic of an index or slice
expression out of range. -/
def NamesReply.Format (MAX_REPLY_LEN : Int) (reply : NamesReply) (client : Client) :
    Option (List GoString) :=
  let lines : List GoString := []
  let base := RplNamReply reply.channel []
  match base.Format client with
  | [] => none
  | line0 :: _ =>
    let baseLen := len line0
    let nicks := reply.channel.Nicks
    match namesLoop MAX_REPLY_LEN reply.channel client baseLen nicks 0 1 lines with
    | none => none
    | some (from_, _, lines) =>
      if from_ < len nicks then
        match slice nicks from_ (len nicks) with
        | none => none
        | some batch =>
          let lines := lines ++ (RplNamReply reply.channel batch).Format client
          some (lines ++ (RplEndOfNames reply.channel).Format client)
      else
        some (lines ++ (RplEndOfNames reply.channel).Format client)

/-! ## `types.go`: name registries -/

/-- A Go pointer: `nil` or the address of a struct. Two pointers are equal when
they are both `nil` or hold the same address, whatever the structs contain. -/
inductive Ptr where
  | nil
  | ref (addr : Nat)
  deriving DecidableEq

/-- The `error` values the registries return: the two package variables made
with `errors.New`, and the result of `fmt.Errorf`, with its message. -/
inductive GoError where
  | ErrNickMissing
  | ErrNicknameInUse
  | Errorf (message : GoString)
  deriving DecidableEq

/-- A `map[string]*T`; a key that is absent is mapped to `none`. -/
abbrev NameMap := GoString → Option Ptr

/-- The index expression `m[key]`: the zero value `nil` for an absent key. -/
def NameMap.index (m : NameMap) (key : GoString) : Ptr := (m key).getD Ptr.nil

/-- The assignment `m[key] = value`. -/
def NameMap.assign (m : NameMap) (key : GoString) (value : Ptr) : NameMap :=
  Function.update m key (some value)

/-- The builtin `delete(m, key)`. -/
def NameMap.delete (m : NameMap) (key : GoString) : NameMap :=
  Function.update m key none

/-- The map made by `make`, without any key. -/
def NameMap.empty : NameMap := fun _ => none

/-- The type `ChannelNameMap`. -/
abbrev ChannelNameMap := NameMap

/-- The type `ClientNameMap`. -/
abbrev ClientNameMap := NameMap

/-- The method `ChannelNameMap.Add`; `heap` gives the struct at each address.
The result is the returned `error` (`none` for `nil`) and the map afterwards;
`none` is the panic of reading `channel.name` through a nil pointer. -/
def ChannelNameMap.Add (heap : Nat → Channel) (channels : ChannelNameMap) (channel : Ptr) :
    Option (Option GoError × ChannelNameMap) :=
  match channel with
  | Ptr.nil => none
  | Ptr.ref addr =>
    if NameMap.index channels (heap addr).name ≠ Ptr.nil then
      some (some (GoError.Errorf (Sprintf (lit "%s: already set") [(heap addr).name])), channels)
    else
      some (none, NameMap.assign channels (heap addr).name channel)

/-- The method `ChannelNameMap.Remove`; `none` is the panic of reading
`channel.name` through a nil pointer. -/
def ChannelNameMap.Remove (heap : Nat → Channel) (channels : ChannelNameMap) (channel : Ptr) :
    Option (Option GoError × ChannelNameMap) :=
  match channel with
  | Ptr.nil => none
  | Ptr.ref addr =>
    if channel ≠ NameMap.index channels (heap addr).name then
      some (some (GoError.Errorf (Sprintf (lit "%s: mismatch") [(heap addr).name])), channels)
    else
      some (none, NameMap.delete channels (heap addr).name)

/-- The method `ClientNameMap.Add`; `none` is the panic of reading a field of
the client through a nil pointer. -/
def ClientNameMap.Add (heap : Nat → Client) (clients : ClientNameMap) (client : Ptr) :
    Option (Option GoError × ClientNameMap) :=
  match client with
  | Ptr.nil => none
  | Ptr.ref addr =>
    if !(heap addr).HasNick then
      some (some GoError.ErrNickMissing, clients)
    else if NameMap.index clients (heap addr).nick ≠ Ptr.nil then
      some (some GoError.ErrNicknameInUse, clients)
    else
      some (none, NameMap.assign clients (heap addr).nick client)

/-- The method `ClientNameMap.Remove`; `none` is the panic of reading
`client.nick` through a nil pointer. -/
def ClientNameMap.Remove (heap : Nat → Client) (clients : ClientNameMap) (client : Ptr) :
    Option (Option GoError × ClientNameMap) :=
  match client with
  | Ptr.nil => none
  | Ptr.ref addr =>
    if NameMap.index clients (heap addr).nick ≠ client then
      some (some (GoError.Errorf (Sprintf (lit "%s: mismatch") [(heap addr).nick])), clients)
    else
      some (none, NameMap.delete clients (heap addr).nick)

/-- The client registries a program can build: the empty map, then any
sequence of `Add` and `Remove` calls that return, each on whatever the heap
holds at the time of the call. -/
inductive ClientNameMap.Built : ClientNameMap → Prop where
  | make : ClientNameMap.Built NameMap.empty
  | add (heap : Nat → Client) (clients clients' : ClientNameMap) (client : Ptr)
      (err : Option GoError) :
      ClientNameMap.Built clients →
      ClientNameMap.Add heap clients client = some (err, clients') →
      ClientNameMap.Built clients'
  | remove (heap : Nat → Client) (clients clients' : ClientNameMap) (client : Ptr)
      (err : Option GoError) :
      ClientNameMap.Built clients →
      ClientNameMap.Remove heap clients client = some (err, clients') →
      ClientNameMap.Built clients'

/-! ## Concrete inputs -/

/-- A client heap in which every address holds an equal client, named `v`. -/
def clientHeap : Nat → Client := fun _ =>
  { nick := lit "v", Id := lit "v!u@h", Nick := lit "v" }

/-- A client heap in which every address holds a client without nickname. -/
def clientHeapNoNick : Nat → Client := fun _ =>
  { nick := [], Id := lit "!u@h", Nick := lit "*" }

/-- A channel heap in which every address holds an equal channel, named `c`. -/
def channelHeap : Nat → Channel := fun _ =>
  { name := lit "c", server := { name := lit "s", Id := lit "s", Nick := lit "s" },
    Nicks := [], Id := lit "c", Nick := lit "c" }

/-- A registry that binds the name `c` to address 1 and nothing else. -/
def mapC1 : NameMap := NameMap.assign NameMap.empty (lit "c") (Ptr.ref 1)

/-- A registry that binds the name `v` to address 1 and nothing else. -/
def mapV1 : NameMap := NameMap.assign NameMap.empty (lit "v") (Ptr.ref 1)

/-- A server whose id is `s`. -/
def serverS : Server := { name := lit "s", Id := lit "s", Nick := lit "s" }

/-- A viewer whose nickname is `v`. -/
def viewerV : Client := { nick := lit "v", Id := lit "v!u@h", Nick := lit "v" }

/-- The channel `c` on `serverS` with the nicknames `alice`, `bob`. -/
def channelTwo : Channel :=
  { name := lit "c", server := serverS, Nicks := [lit "alice", lit "bob"],
    Id := lit "c", Nick := lit "c" }

/-- The channel `chan` on `serverS` with the nicknames `alice`, `bob`, `carol`,
`dave`. -/
def channelChan : Channel :=
  { name := lit "chan", server := serverS,
    Nicks := [lit "alice", lit "bob", lit "carol", lit "dave"],
    Id := lit "chan", Nick := lit "chan" }

/-- The channel `c` on `serverS` with no nickname. -/
def channelEmpty : Channel :=
  { name := lit "c", server := serverS, Nicks := [], Id := lit "c", Nick := lit "c" }

/-! ## `reply.go`: text replies -/

/-- The struct `StringReply`. -/
structure StringReply extends BaseReply where
  code : GoString

/-- The function `NewStringReply`. -/
def NewStringReply (source : Identifier) (code : GoString) (format : GoString)
    (args : List GoString) : StringReply :=
  let reply : StringReply := { id := [], message := [], source := none, code := code }
  let reply : StringReply := { reply with toBaseReply := reply.toBaseReply.SetSource source }
  { reply with message := Sprintf format args }

/-- The method `StringReply.Format`; the client is not read. -/
def StringReply.Format (reply : StringReply) (_client : Client) : List GoString :=
  let message := Sprintf (lit ":%s %s %s") [reply.id, reply.code, reply.message]
  [message]

/-- The function `RplJoin`: the channel name is passed as the format. -/
def RplJoin (client : Client) (channel : Channel) : StringReply :=
  NewStringReply client.toIdentifier (lit "JOIN") channel.name []

/-! ## `reply.go`: the packing loop, one iteration at a time -/

/-- The variables of the loop of `NamesReply.Format`. -/
structure Window where
  from_ : Int
  to_ : Int
  lines : List GoString

/-- The body of the loop of `NamesReply.Format`, run once from the state `w`;
`none` is the panic of a slice expression out of range. -/
def namesIter (MAX_REPLY_LEN : Int) (channel : Channel) (client : Client) (baseLen : Int)
    (nicks : List GoString) (w : Window) : Option Window :=
  if w.from_ < w.to_ - 1 then
    match slice nicks w.from_ w.to_ with
    | none => none
    | some window =>
      if tooLong MAX_REPLY_LEN baseLen window then
        match slice nicks w.from_ (w.to_ - 1) with
        | none => none
        | some batch =>
          some ⟨w.to_ - 1, w.to_, w.lines ++ (RplNamReply channel batch).Format client⟩
      else some ⟨w.from_, w.to_ + 1, w.lines⟩
  else some ⟨w.from_, w.to_ + 1, w.lines⟩

/-- The state `w'` is the one after `n` iterations of the loop started in `w`:
each iteration is entered with the loop condition `to < len(nicks)` true. -/
inductive Iterates (MAX_REPLY_LEN : Int) (channel : Channel) (client : Client) (baseLen : Int)
    (nicks : List GoString) (w : Window) : Nat → Window → Prop where
  | zero : Iterates MAX_REPLY_LEN channel client baseLen nicks w 0 w
  | succ (n : Nat) (w' w'' : Window) :
      Iterates MAX_REPLY_LEN channel client baseLen nicks w n w' →
      w'.to_ < len nicks →
      namesIter MAX_REPLY_LEN channel client baseLen nicks w' = some w'' →
      Iterates MAX_REPLY_LEN channel client baseLen nicks w (n + 1) w''

/-- The state in which `NamesReply.Format` enters its loop: `from, to := 0, 1`
and no line yet. -/
def Window.init : Window := ⟨0, 1, []⟩

/-- Greedy maximality between a batch and the batch of the following line: the
first nickname of the following batch, added to the batch, gives a names-line
longer than the bound. -/
def Maximal (MAX_REPLY_LEN : Int) (s v c : GoString) (b b' : List GoString) : Prop :=
  ∃ n rest, b' = n :: rest ∧
    len (lit ":" ++ s ++ lit " 353 " ++ v ++ lit " = " ++ c ++ lit " :"
      ++ Join (b ++ [n]) (lit " ")) > MAX_REPLY_LEN

/-! ## `types.go`: membership sets -/

/-- The type `ChannelMode` (`type ChannelMode rune`). -/
abbrev ChannelMode := Int

/-- The type `ChannelModeSet`, a `map[ChannelMode]bool`; an absent key is mapped
to `none`, and the nil map reads like the map without keys. -/
abbrev ChannelModeSet := ChannelMode → Option Bool

/-- The type `ClientSet`, a `map[*Client]ChannelModeSet` made by `make`; an
absent key is mapped to `none`. -/
abbrev ClientSet := Ptr → Option ChannelModeSet

/-- The method `ClientSet.Add`: `clients[client] = make(ChannelModeSet)`. -/
def ClientSet.Add (clients : ClientSet) (client : Ptr) : ClientSet :=
  Function.update clients client (some (fun _ => none))

/-- The method `ClientSet.Remove`. -/
def ClientSet.Remove (clients : ClientSet) (client : Ptr) : ClientSet :=
  Function.update clients client none

/-- The method `ClientSet.HasMode`. -/
def ClientSet.HasMode (clients : ClientSet) (client : Ptr) (mode : ChannelMode) : Bool :=
  match clients client with
  | none => false
  | some modes => (modes mode).getD false

/-- The method `ClientSet.Has`. -/
def ClientSet.Has (clients : ClientSet) (client : Ptr) : Bool :=
  match clients client with
  | none => false
  | some _ => true

/-! ## `types.go`: registries over a heap whose names do not change -/

/-- The channel registries built over the heap `heap`: the empty map, then any
sequence of `Add` and `Remove` calls that return, with or without error. -/
inductive ChannelNameMap.BuiltOn (heap : Nat → Channel) : ChannelNameMap → Prop where
  | make : ChannelNameMap.BuiltOn heap NameMap.empty
  | add (channels channels' : ChannelNameMap) (channel : Ptr) (err : Option GoError) :
      ChannelNameMap.BuiltOn heap channels →
      ChannelNameMap.Add heap channels channel = some (err, channels') →
      ChannelNameMap.BuiltOn heap channels'
  | remove (channels channels' : ChannelNameMap) (channel : Ptr) (err : Option GoError) :
      ChannelNameMap.BuiltOn heap channels →
      ChannelNameMap.Remove heap channels channel = some (err, channels') →
      ChannelNameMap.BuiltOn heap channels'

/-- The client registries built over the heap `heap`: the empty map, then any
sequence of `Add` and `Remove` calls that return, with or without error. -/
inductive ClientNameMap.BuiltOn (heap : Nat → Client) : ClientNameMap → Prop where
  | make : ClientNameMap.BuiltOn heap NameMap.empty
  | add (clients clients' : ClientNameMap) (client : Ptr) (err : Option GoError) :
      ClientNameMap.BuiltOn heap clients →
      ClientNameMap.Add heap clients client = some (err, clients') →
      ClientNameMap.BuiltOn heap clients'
  | remove (clients clients' : ClientNameMap) (client : Ptr) (err : Option GoError) :
      ClientNameMap.BuiltOn heap clients →
      ClientNameMap.Remove heap clients client = some (err, clients') →
      ClientNameMap.BuiltOn heap clients'

/-! ## `socket.go`: the inbound pump -/

/-- Library `bufio.Reader.ReadString(delim)` on a reader that still delivers the
bytes `input` and then fails (end of input or a read error): the bytes up to
and including the first `delim`, the input left, and `false` for a nil error;
when no `delim` comes before the failure, all the bytes and `true`. -/
def ReadString : List UInt8 → UInt8 → GoString × List UInt8 × Bool
  | [], _ => ([], [], true)
  | b :: rest, delim =>
    if b = delim then ([b], rest, false)
    else ((b :: (ReadString rest delim).1), (ReadString rest delim).2.1,
      (ReadString rest delim).2.2)

/-- Library `strings.TrimRight(s, cutset)` for a cutset of ASCII bytes: `s`
without its trailing bytes that are in the cutset. -/
def TrimRight (s cutset : GoString) : GoString :=
  (s.reverse.dropWhile (fun b => decide (b ∈ cutset))).reverse

/-- The channel `socket.receive` as the pump leaves it: the lines sent, in the
order of the sends, and whether it has been closed. -/
structure LineChan where
  sent : List GoString
  closed : Bool

/-- The method `Socket.readLines` up to `close(socket.receive)`, on a reader
that delivers `input` and then fails, after the lines `sent` have been sent.
The debug log is left out. The number of iterations is bounded by `fuel`;
`none` when it is exhausted. -/
def readLinesLoop : Nat → List UInt8 → List GoString → Option LineChan
  | 0, _, _ => none
  | fuel + 1, input, sent =>
    let line := (ReadString input 10).1
    let err := (ReadString input 10).2.2
    if err then some ⟨sent, true⟩
    else
      let line := TrimRight line (lit "\r\n")
      if len line = 0 then readLinesLoop fuel (ReadString input 10).2.1 sent
      else readLinesLoop fuel (ReadString input 10).2.1 (sent ++ [line])

/-- The method `Socket.readLines`: every iteration that does not leave the loop
consumes at least one byte, so `len(input) + 1` iterations are enough. -/
def readLines (input : List UInt8) : Option LineChan :=
  readLinesLoop (input.length + 1) input []

/-- The empty-name channel heap: every address holds a channel whose name is
the empty string. -/
def channelHeapNoName : Nat → Channel := fun _ =>
  { name := [], server := { name := lit "s", Id := lit "s", Nick := lit "s" },
    Nicks := [], Id := [], Nick := [] }

/-- A client whose id is `n!u@h`. -/
def clientN : Client := { nick := lit "n", Id := lit "n!u@h", Nick := lit "n" }

/-- The channel named `#100%`. -/
def channelPercent : Channel :=
  { name := lit "#100%", server := serverS, Nicks := [], Id := lit "#100%", Nick := lit "#100%" }

/-! ## Specification-side renderings -/

/-- The names-list line of the spec for server id `s`, viewer nickname `v`,
channel name `c` and the batch of nicknames `b`:
`:<s> 353 <v> = <c> :<b joined by single spaces>`. -/
def namesLine (s v c : GoString) (b : List GoString) : GoString :=
  lit ":" ++ s ++ lit " 353 " ++ v ++ lit " = " ++ c ++ lit " :" ++ Join b (lit " ")

/-- The names-terminator line of the spec:
`:<s> 366 <v> <c> :End of NAMES list`. -/
def endOfNamesLine (s v c : GoString) : GoString :=
  lit ":" ++ s ++ lit " 366 " ++ v ++ lit " " ++ c ++ lit " :End of NAMES list"

/-! ## Formatting lemmas -/

theorem sprintf_numeric_line (a b c d : GoString) :
    Sprintf (lit ":%s %s %s %s") [a, b, c, d]
      = lit ":" ++ a ++ lit " " ++ b ++ lit " " ++ c ++ lit " " ++ d := by
  have hf : lit ":%s %s %s %s" = [58, 37, 115, 32, 37, 115, 32, 37, 115, 32, 37, 115] := by decide
  have h1 : lit ":" = [58] := by decide
  have h2 : lit " " = [32] := by decide
  rw [hf, h1, h2]
  simp [Sprintf, extraArgs]

theorem numericReply_format (source : Identifier) (code : Numeric) (format : GoString)
    (args : List GoString) (client : Client) :
    (NewNumericReply source code format args).Format client
      = [lit ":" ++ source.Id ++ lit " " ++ Numeric.String code ++ lit " " ++ client.Nick
          ++ lit " " ++ Sprintf format args] := by
  simp only [NumericReply.Format, NewNumericReply, BaseReply.SetSource, sprintf_numeric_line]

theorem rplNamReply_format (channel : Channel) (names : List GoString) (client : Client) :
    (RplNamReply channel names).Format client
      = [namesLine channel.server.Id client.Nick channel.name names] := by
  have hf : lit "= %s :%s" = [61, 32, 37, 115, 32, 58, 37, 115] := by decide
  have hc : Numeric.String RPL_NAMREPLY = lit "353" := by decide
  have h1 : lit " 353 " = lit " " ++ lit "353" ++ lit " " := by decide
  have h2 : lit " = " = lit " " ++ [61, 32] := by decide
  have h3 : lit " :" = [32, 58] := by decide
  rw [RplNamReply, numericReply_format, hf, hc, namesLine, h1, h2, h3]
  simp [Sprintf, extraArgs, Server.toIdentifier]

theorem sprintf_plain (rest : GoString) (h : ∀ x ∈ rest, x ≠ 37) : Sprintf rest [] = rest := by
  induction rest with
  | nil => rfl
  | cons x xs ih =>
    have hx : x ≠ 37 := h x (by simp)
    have hxs : ∀ y ∈ xs, y ≠ 37 := fun y hy => h y (by simp [hy])
    rw [Sprintf.eq_def]
    simp [hx, ih hxs]

theorem sprintf_s_suffix (name suffix : GoString) (h : ∀ x ∈ suffix, x ≠ 37) :
    Sprintf (37 :: 115 :: suffix) [name] = name ++ suffix := by
  rw [Sprintf.eq_def]
  simp [sprintf_plain suffix h]

theorem rplEndOfNames_format (channel : Channel) (client : Client) :
    (RplEndOfNames channel).Format client
      = [endOfNamesLine channel.server.Id client.Nick channel.name] := by
  have hf : lit "%s :End of NAMES list" = 37 :: 115 :: lit " :End of NAMES list" := by decide
  have hc : Numeric.String RPL_ENDOFNAMES = lit "366" := by decide
  have h1 : lit " 366 " = lit " " ++ lit "366" ++ lit " " := by decide
  rw [RplEndOfNames, numericReply_format, hf, sprintf_s_suffix _ _ (by decide), hc,
    endOfNamesLine, h1]
  simp [Server.toIdentifier]

/-! ## The packing loop -/

theorem slice_nat {α : Type} (xs : List α) (f t : Nat) (hft : f ≤ t) (ht : t ≤ xs.length) :
    slice xs (f : Int) (t : Int) = some ((xs.drop f).take (t - f)) := by
  unfold slice len
  rw [if_pos (by omega)]
  have h1 : ((f : Int)).toNat = f := by omega
  have h2 : ((t : Int) - (f : Int)).toNat = t - f := by omega
  rw [h1, h2]

theorem namesLoop_exit (M : Int) (channel : Channel) (client : Client) (baseLen : Int)
    (nicks : List GoString) (from_ to_ : Int) (lines : List GoString)
    (h : ¬ to_ < len nicks) :
    namesLoop M channel client baseLen nicks from_ to_ lines = some (from_, to_, lines) := by
  rw [namesLoop.eq_1, if_neg h]

/-- From a state with `from < to ≤ len(nicks)` the loop exits, with `to = len(nicks)`
and `from` still inside the list, having appended one names-line per batch of a
sequence of non-empty batches that exactly covers `nicks[from:from']`. -/
theorem namesLoop_batches (M : Int) (channel : Channel) (client : Client) (baseLen : Int)
    (nicks : List GoString) :
    ∀ (n f t : Nat) (lines : List GoString),
      2 * (nicks.length - t) + (if f + 1 < t then 1 else 0) = n → f < t → t ≤ nicks.length →
      ∃ (f' : Nat) (bs : List (List GoString)),
        namesLoop M channel client baseLen nicks (f : Int) (t : Int) lines
            = some ((f' : Int), (nicks.length : Int),
                lines ++ bs.map (namesLine channel.server.Id client.Nick channel.name))
          ∧ f ≤ f' ∧ f' < nicks.length ∧ (∀ b ∈ bs, b ≠ [])
          ∧ bs.flatten ++ nicks.drop f' = nicks.drop f := by
  intro n
  induction n using Nat.strong_induction_on with
  | _ n ih =>
    intro f t lines hn hft htl
    by_cases hlt : t < nicks.length
    · have hlt' : (t : Int) < len nicks := by unfold len; omega
      rw [namesLoop.eq_1, if_pos hlt']
      have hnext : ∀ lines' : List GoString, ∃ (f' : Nat) (bs : List (List GoString)),
          namesLoop M channel client baseLen nicks (f : Int) ((t : Int) + 1) lines'
              = some ((f' : Int), (nicks.length : Int),
                  lines' ++ bs.map (namesLine channel.server.Id client.Nick channel.name))
            ∧ f ≤ f' ∧ f' < nicks.length ∧ (∀ b ∈ bs, b ≠ [])
            ∧ bs.flatten ++ nicks.drop f' = nicks.drop f := by
        intro lines'
        have hm : 2 * (nicks.length - (t + 1)) + (if f + 1 < t + 1 then 1 else 0) < n := by
          split at hn <;> split <;> omega
        have := ih _ hm f (t + 1) lines' rfl (by omega) (by omega)
        simpa using this
      by_cases hw : f + 1 < t
      · have hw' : (f : Int) < (t : Int) - 1 := by omega
        rw [if_pos hw', slice_nat nicks f t (by omega) (by omega)]
        simp only []
        by_cases hlong : tooLong M baseLen ((nicks.drop f).take (t - f)) = true
        · rw [if_pos hlong]
          have hcast : (t : Int) - 1 = ((t - 1 : Nat) : Int) := by omega
          rw [hcast, slice_nat nicks f (t - 1) (by omega) (by omega)]
          simp only []
          have hm : 2 * (nicks.length - t) + (if (t - 1) + 1 < t then 1 else 0) < n := by
            rw [if_pos hw] at hn
            rw [if_neg (by omega)]
            omega
          obtain ⟨f', bs, hrun, hf1, hf2, hne, hcov⟩ :=
            ih _ hm (t - 1) t (lines ++ (RplNamReply channel
              ((nicks.drop f).take (t - 1 - f))).Format client) rfl (by omega) (by omega)
          refine ⟨f', (nicks.drop f).take (t - 1 - f) :: bs, ?_, by omega, hf2, ?_, ?_⟩
          · rw [hrun, rplNamReply_format]
            simp
          · intro b hb
            rcases List.mem_cons.mp hb with rfl | hb
            · intro h0
              have hlen := congrArg List.length h0
              simp at hlen
              omega
            · exact hne b hb
          · rw [List.flatten_cons, List.append_assoc, hcov]
            have hd : nicks.drop (t - 1) = (nicks.drop f).drop (t - 1 - f) := by
              rw [List.drop_drop]
              congr 1
              omega
            rw [hd, List.take_append_drop]
        · rw [if_neg hlong]
          exact hnext lines
      · have hw' : ¬ (f : Int) < (t : Int) - 1 := by omega
        rw [if_neg hw']
        exact hnext lines
    · have ht : t = nicks.length := by omega
      have hlt' : ¬ (t : Int) < len nicks := by unfold len; omega
      refine ⟨f, [], ?_, le_refl f, by omega, by simp, by simp⟩
      rw [namesLoop_exit _ _ _ _ _ _ _ _ hlt', ht]
      simp

/-! ## Single iterations of the loop -/

theorem namesLoop_extend_single (M : Int) (channel : Channel) (client : Client) (baseLen : Int)
    (nicks : List GoString) (from_ to_ : Int) (lines : List GoString)
    (h : to_ < len nicks) (hw : ¬ from_ < to_ - 1) :
    namesLoop M channel client baseLen nicks from_ to_ lines
      = namesLoop M channel client baseLen nicks from_ (to_ + 1) lines := by
  rw [namesLoop.eq_1, if_pos h, if_neg hw]

theorem namesLoop_extend_fits (M : Int) (channel : Channel) (client : Client) (baseLen : Int)
    (nicks : List GoString) (from_ to_ : Int) (lines : List GoString) (window : List GoString)
    (h : to_ < len nicks) (hw : from_ < to_ - 1) (hs : slice nicks from_ to_ = some window)
    (hfit : tooLong M baseLen window = false) :
    namesLoop M channel client baseLen nicks from_ to_ lines
      = namesLoop M channel client baseLen nicks from_ (to_ + 1) lines := by
  rw [namesLoop.eq_1, if_pos h, if_pos hw, hs]
  simp [hfit]

theorem namesLoop_emit (M : Int) (channel : Channel) (client : Client) (baseLen : Int)
    (nicks : List GoString) (from_ to_ : Int) (lines : List GoString)
    (window batch : List GoString)
    (h : to_ < len nicks) (hw : from_ < to_ - 1) (hs : slice nicks from_ to_ = some window)
    (hlong : tooLong M baseLen window = true)
    (hb : slice nicks from_ (to_ - 1) = some batch) :
    namesLoop M channel client baseLen nicks from_ to_ lines
      = namesLoop M channel client baseLen nicks (to_ - 1) to_
          (lines ++ (RplNamReply channel batch).Format client) := by
  rw [namesLoop.eq_1, if_pos h, if_pos hw, hs]
  simp [hlong, hb]

/-! ## Lengths -/

theorem foldl_add_len (names : List GoString) (init : Int) :
    names.foldl (fun l name => l + len name) init = init + (names.map len).sum := by
  induction names generalizing init with
  | nil => simp
  | cons a rest ih => simp [ih, add_assoc]

theorem joinedLen_eq_sum (names : List GoString) :
    joinedLen names = (names.map len).sum + (len names - 1) := by
  rw [joinedLen, foldl_add_len]
  ring

theorem len_append (a b : GoString) : len (a ++ b) = len a + len b := by
  simp [len]

theorem len_Join_space (a : GoString) (rest : List GoString) :
    len (Join (a :: rest) (lit " ")) = ((a :: rest).map len).sum + (len (a :: rest) - 1) := by
  induction rest generalizing a with
  | nil => simp [Join, len]
  | cons b rest ih =>
    have hsp : len (lit " ") = 1 := by decide
    rw [Join, len_append, len_append, ih b, hsp]
    simp [len]
    ring

theorem joinedLen_eq_len_Join (names : List GoString) (h : names ≠ []) :
    joinedLen names = len (Join names (lit " ")) := by
  cases names with
  | nil => exact absurd rfl h
  | cons a rest => rw [joinedLen_eq_sum, len_Join_space]

/-- The rendered length of a names-line is the length of the line without
nicknames plus the length of the joined nicknames. -/
theorem len_namesLine (s v c : GoString) (b : List GoString) :
    len (namesLine s v c b) = len (namesLine s v c []) + len (Join b (lit " ")) := by
  simp only [namesLine, Join, len, List.length_append, List.length_nil, Nat.cast_add,
    Nat.cast_zero]
  ring

/-! ## Claims about `NamesReply.Format` -/

/-- C1: for every channel, viewer and bound, `NamesReply.Format` returns (without
panicking) one names-line per batch of a sequence of non-empty batches whose
concatenation is the channel's nickname list, in order, followed by exactly one
terminator line; the line of batch `b` is
`":" + s + " 353 " + v + " = " + c + " :" + (b joined by single spaces)`. -/
theorem NamesReply_Format_batches (channel : Channel) (client : Client) (MAX_REPLY_LEN : Int) :
    ∃ batches : List (List GoString),
      (∀ b ∈ batches, b ≠ []) ∧ batches.flatten = channel.Nicks ∧
      NamesReply.Format MAX_REPLY_LEN (NewNamesReply channel) client
        = some (batches.map (fun b =>
              lit ":" ++ channel.server.Id ++ lit " 353 " ++ client.Nick ++ lit " = "
                ++ channel.name ++ lit " :" ++ Join b (lit " "))
            ++ [lit ":" ++ channel.server.Id ++ lit " 366 " ++ client.Nick ++ lit " "
                ++ channel.name ++ lit " :End of NAMES list"]) := by
  have hch : (NewNamesReply channel).channel = channel := rfl
  unfold NamesReply.Format
  simp only [hch, rplNamReply_format, rplEndOfNames_format]
  by_cases hnil : channel.Nicks = []
  · refine ⟨[], by simp, by simp [hnil], ?_⟩
    rw [namesLoop_exit _ _ _ _ _ _ _ _ (by simp [hnil, len])]
    simp [hnil, len, endOfNamesLine]
  · have hpos : 0 < channel.Nicks.length := List.length_pos.mpr hnil
    obtain ⟨f', bs, hrun, _, hf2, hne, hcov⟩ :=
      namesLoop_batches MAX_REPLY_LEN channel client
        (len (namesLine channel.server.Id client.Nick channel.name [])) channel.Nicks
        _ 0 1 [] rfl (by omega) (by omega)
    have hrun' : namesLoop MAX_REPLY_LEN channel client
        (len (namesLine channel.server.Id client.Nick channel.name [])) channel.Nicks 0 1 []
          = some ((f' : Int), (channel.Nicks.length : Int),
              [] ++ bs.map (namesLine channel.server.Id client.Nick channel.name)) := by
      simpa using hrun
    refine ⟨bs ++ [channel.Nicks.drop f'], ?_, ?_, ?_⟩
    · intro b hb
      rcases List.mem_append.mp hb with hb | hb
      · exact hne b hb
      · rw [List.mem_singleton.mp hb]
        intro h0
        have hlen := congrArg List.length h0
        simp at hlen
        omega
    · simpa using hcov
    · rw [hrun']
      have hlt : (f' : Int) < len channel.Nicks := by unfold len; omega
      simp only [if_pos hlt]
      have hs := slice_nat channel.Nicks f' channel.Nicks.length (by omega) (le_refl _)
      have hlen : len channel.Nicks = (channel.Nicks.length : Int) := rfl
      rw [hlen, hs]
      have htake : (channel.Nicks.drop f').take (channel.Nicks.length - f')
          = channel.Nicks.drop f' := by
        apply List.take_of_length_le
        simp
      simp [htake, namesLine, endOfNamesLine]

theorem format_two_nicks (channel : Channel) (client : Client) (M : Int) (a b : GoString)
    (hn : channel.Nicks = [a, b]) :
    NamesReply.Format M (NewNamesReply channel) client
      = some [namesLine channel.server.Id client.Nick channel.name [a, b],
          endOfNamesLine channel.server.Id client.Nick channel.name] := by
  have hch : (NewNamesReply channel).channel = channel := rfl
  unfold NamesReply.Format
  simp only [hch, rplNamReply_format, rplEndOfNames_format, hn]
  have e1 := namesLoop_extend_single M channel client
    (len (namesLine channel.server.Id client.Nick channel.name [])) [a, b] 0 1 []
    (by simp [len]) (by decide)
  have e2 := namesLoop_exit M channel client
    (len (namesLine channel.server.Id client.Nick channel.name [])) [a, b] 0 (1 + 1) []
    (by simp [len])
  rw [e1, e2]
  have hlen : len [a, b] = 2 := rfl
  simp [hlen, slice]

theorem format_four_nicks_three_fit (channel : Channel) (client : Client) (M : Int)
    (hn : channel.Nicks = [lit "alice", lit "bob", lit "carol", lit "dave"])
    (h3 : len (namesLine channel.server.Id client.Nick channel.name
            [lit "alice", lit "bob", lit "carol"]) ≤ M) :
    NamesReply.Format M (NewNamesReply channel) client
      = some [namesLine channel.server.Id client.Nick channel.name
            [lit "alice", lit "bob", lit "carol", lit "dave"],
          endOfNamesLine channel.server.Id client.Nick channel.name] := by
  have hch : (NewNamesReply channel).channel = channel := rfl
  unfold NamesReply.Format
  simp only [hch, rplNamReply_format, rplEndOfNames_format, hn]
  rw [len_namesLine] at h3
  have hj3 : len (Join [lit "alice", lit "bob", lit "carol"] (lit " ")) = 15 := by decide
  have hj2 : joinedLen [lit "alice", lit "bob"] = 9 := by decide
  have hj3' : joinedLen [lit "alice", lit "bob", lit "carol"] = 15 := by decide
  generalize len (namesLine channel.server.Id client.Nick channel.name []) = baseLen at h3 ⊢
  have e1 := namesLoop_extend_single M channel client baseLen
    [lit "alice", lit "bob", lit "carol", lit "dave"] 0 1 [] (by decide) (by decide)
  have e2 := namesLoop_extend_fits M channel client baseLen
    [lit "alice", lit "bob", lit "carol", lit "dave"] 0 (1 + 1) []
    [lit "alice", lit "bob"] (by decide) (by decide) (by decide)
    (by rw [tooLong, hj2]; simp; omega)
  have e3 := namesLoop_extend_fits M channel client baseLen
    [lit "alice", lit "bob", lit "carol", lit "dave"] 0 (1 + 1 + 1) []
    [lit "alice", lit "bob", lit "carol"] (by decide) (by decide) (by decide)
    (by rw [tooLong, hj3']; simp; omega)
  have e4 := namesLoop_exit M channel client baseLen
    [lit "alice", lit "bob", lit "carol", lit "dave"] 0 (1 + 1 + 1 + 1) [] (by decide)
  rw [e1, e2, e3, e4]
  have hlen : len [lit "alice", lit "bob", lit "carol", lit "dave"] = 4 := rfl
  simp [hlen, slice]

/-- C2 (the code at a failing input): with `MAX_REPLY_LEN = 20`, the channel `c`
holding `alice` and `bob` is rendered for viewer `v` as one names-line of 23
bytes carrying two nicknames, then the terminator: the last names-line is
emitted without having been measured. -/
theorem NamesReply_Format_last_line_over_bound :
    NamesReply.Format 20 (NewNamesReply channelTwo) viewerV
      = some [lit ":s 353 v = c :alice bob", lit ":s 366 v c :End of NAMES list"]
    ∧ len (lit ":s 353 v = c :alice bob") = 23 := by
  refine ⟨?_, by decide⟩
  rw [format_two_nicks channelTwo viewerV 20 (lit "alice") (lit "bob") rfl]
  decide

/-- C3 (the code at a failing input): with `MAX_REPLY_LEN = 32`, for the channel
`chan` holding `alice`, `bob`, `carol`, `dave` and viewer `v`, the names-line
with the first three nicknames has 32 bytes and the one with all four has 37,
yet the code returns two lines: one names-line carrying all four nicknames, then
the terminator. -/
theorem NamesReply_Format_chan_scenario :
    len (lit ":s 353 v = chan :alice bob carol") = 32
    ∧ len (lit ":s 353 v = chan :alice bob carol dave") = 37
    ∧ NamesReply.Format 32 (NewNamesReply channelChan) viewerV
      = some [lit ":s 353 v = chan :alice bob carol dave",
          lit ":s 366 v chan :End of NAMES list"] := by
  refine ⟨by decide, by decide, ?_⟩
  rw [format_four_nicks_three_fit channelChan viewerV 32 rfl (by decide)]
  decide

/-- C4: for a channel whose nickname list is empty, `NamesReply.Format` returns
exactly one line, the terminator
`":" + server-id + " 366 " + viewer-nick + " " + channel-name + " :End of NAMES list"`. -/
theorem NamesReply_Format_empty (channel : Channel) (client : Client) (MAX_REPLY_LEN : Int)
    (h : channel.Nicks = []) :
    NamesReply.Format MAX_REPLY_LEN (NewNamesReply channel) client
      = some [lit ":" ++ channel.server.Id ++ lit " 366 " ++ client.Nick ++ lit " "
          ++ channel.name ++ lit " :End of NAMES list"] := by
  have hch : (NewNamesReply channel).channel = channel := rfl
  unfold NamesReply.Format
  simp only [hch, rplNamReply_format, rplEndOfNames_format]
  rw [namesLoop_exit _ _ _ _ _ _ _ _ (by simp [h, len])]
  simp [h, len, endOfNamesLine]

theorem NamesReply_Format_empty_witness :
    channelEmpty.Nicks = []
    ∧ NamesReply.Format 512 (NewNamesReply channelEmpty) viewerV
      = some [lit ":" ++ channelEmpty.server.Id ++ lit " 366 " ++ viewerV.Nick ++ lit " "
          ++ channelEmpty.name ++ lit " :End of NAMES list"] :=
  ⟨rfl, NamesReply_Format_empty channelEmpty viewerV 512 rfl⟩

/-! ## Claims about numeric replies -/

/-- C5: a reply built by `NewNumericReply(source, code, format, args...)` is
formatted for any viewer as exactly one line,
`":" + source.Id() + " " + code.String() + " " + viewer.Nick() + " " + m` with
`m` the formatted body; the nickname is the viewer's. In particular
`ErrNickNameInUse(source, "nick")` for a viewer whose nickname is `bob` gives
`:<source-id> 433 bob nick :Nickname is already in use`. -/
theorem NumericReply_Format_line (source : Identifier) (code : Numeric) (format : GoString)
    (args : List GoString) (viewer : Client) :
    (NewNumericReply source code format args).Format viewer
      = [lit ":" ++ source.Id ++ lit " " ++ Numeric.String code ++ lit " " ++ viewer.Nick
          ++ lit " " ++ Sprintf format args]
    ∧ (ErrNickNameInUse source (lit "nick")).Format { viewer with Nick := lit "bob" }
      = [lit ":" ++ source.Id ++ lit " 433 bob nick :Nickname is already in use"] := by
  refine ⟨numericReply_format source code format args viewer, ?_⟩
  rw [ErrNickNameInUse, numericReply_format]
  have hc : Numeric.String ERR_NICKNAMEINUSE = lit "433" := by decide
  have hm : Sprintf (lit "%s :Nickname is already in use") [lit "nick"]
      = lit "nick :Nickname is already in use" := by decide
  have hl : lit " 433 bob nick :Nickname is already in use"
      = lit " " ++ lit "433" ++ lit " " ++ lit "bob" ++ lit " "
        ++ lit "nick :Nickname is already in use" := by decide
  rw [hc, hm, hl]
  simp

/-- C6 (counterexample): the code 1000 is rendered with four digits. -/
theorem Numeric_String_1000 :
    Numeric.String 1000 = lit "1000" ∧ (Numeric.String 1000).length ≠ 3 := by
  decide

set_option maxRecDepth 100000 in
/-- C6 (amended): a code below 1000 is rendered as exactly three decimal digits,
zero-padded on the left: its hundreds, tens and units digits. Code 1 gives
`001` and code 422 gives `422`. -/
theorem Numeric_String_three_digits (code : Numeric) (h : code < 1000) :
    Numeric.String code
      = [UInt8.ofNat (48 + code / 100), UInt8.ofNat (48 + code / 10 % 10),
          UInt8.ofNat (48 + code % 10)]
    ∧ Numeric.String 1 = lit "001" ∧ Numeric.String 422 = lit "422" := by
  have hall : ∀ c : Nat, c < 1000 →
      Numeric.String c
        = [UInt8.ofNat (48 + c / 100), UInt8.ofNat (48 + c / 10 % 10),
            UInt8.ofNat (48 + c % 10)] := by
    decide
  exact ⟨hall code h, by decide, by decide⟩

theorem Numeric_String_three_digits_witness :
    (7 : Nat) < 1000
    ∧ (Numeric.String 7
        = [UInt8.ofNat (48 + 7 / 100), UInt8.ofNat (48 + 7 / 10 % 10), UInt8.ofNat (48 + 7 % 10)]
      ∧ Numeric.String 1 = lit "001" ∧ Numeric.String 422 = lit "422") :=
  ⟨by decide, Numeric_String_three_digits 7 (by decide)⟩

/-- C7: `joinedLen(names)` is the sum of the byte lengths of the names plus
`len(names) - 1`, as a signed integer; for a non-empty list that is the byte
length of the names joined by single spaces, and for the empty list it is -1. -/
theorem joinedLen_spec (names : List GoString) (a : GoString) (rest : List GoString) :
    joinedLen names = (names.map len).sum + (len names - 1)
    ∧ joinedLen (a :: rest) = len (Join (a :: rest) (lit " "))
    ∧ joinedLen [] = -1 := by
  refine ⟨joinedLen_eq_sum names, joinedLen_eq_len_Join _ (by simp), by decide⟩

/-! ## Claims about the name registries -/

theorem sprintf_already_set (name : GoString) :
    Sprintf (lit "%s: already set") [name] = name ++ lit ": already set" := by
  have hf : lit "%s: already set" = 37 :: 115 :: lit ": already set" := by decide
  rw [hf, sprintf_s_suffix name _ (by decide)]

theorem sprintf_mismatch (name : GoString) :
    Sprintf (lit "%s: mismatch") [name] = name ++ lit ": mismatch" := by
  have hf : lit "%s: mismatch" = 37 :: 115 :: lit ": mismatch" := by decide
  rw [hf, sprintf_s_suffix name _ (by decide)]

theorem hasNick_iff (client : Client) : client.HasNick = true ↔ client.nick ≠ [] := by
  simp [Client.HasNick]

/-- Every registry built from the empty one leaves the empty nickname absent. -/
theorem built_empty_key_absent (m : ClientNameMap) (h : ClientNameMap.Built m) : m [] = none := by
  induction h with
  | make => rfl
  | add heap clients clients' client err _ hadd ih =>
    cases client with
    | nil => simp [ClientNameMap.Add] at hadd
    | ref addr =>
      by_cases hn : (heap addr).HasNick = true
      · have hne : (heap addr).nick ≠ [] := (hasNick_iff _).mp hn
        by_cases hb : NameMap.index clients (heap addr).nick = Ptr.nil
        · simp [ClientNameMap.Add, hn, hb] at hadd
          rw [← hadd.2, NameMap.assign, Function.update_noteq (Ne.symm hne)]
          exact ih
        · simp [ClientNameMap.Add, hn, hb] at hadd
          rw [← hadd.2]
          exact ih
      · simp [ClientNameMap.Add, hn] at hadd
        rw [← hadd.2]
        exact ih
  | remove heap clients clients' client err _ hrem ih =>
    cases client with
    | nil => simp [ClientNameMap.Remove] at hrem
    | ref addr =>
      by_cases hb : NameMap.index clients (heap addr).nick = Ptr.ref addr
      · simp [ClientNameMap.Remove, hb] at hrem
        rw [← hrem.2, NameMap.delete]
        by_cases hk : ([] : GoString) = (heap addr).nick
        · rw [← hk, Function.update_same]
        · rw [Function.update_noteq hk]
          exact ih
      · simp [ClientNameMap.Remove, hb] at hrem
        rw [← hrem.2]
        exact ih

/-- C8: `Add` on a name registry is exclusive. When the name of entity `b` is
bound (to the entity at address `a`), `Add(b)` returns a non-nil error, the
"already set" error for channels and `ErrNicknameInUse` for clients, and the
registry is unchanged; when the name is not bound (and, for clients, `b` has a
nickname), `Add(b)` returns nil and the registry differs only in binding the
name to `b`. -/
theorem NameMap_Add_exclusive (chans : Nat → Channel) (clis : Nat → Client)
    (channels : ChannelNameMap) (clients : ClientNameMap) (a b : Nat) :
    (NameMap.index channels (chans b).name = Ptr.ref a →
      ChannelNameMap.Add chans channels (Ptr.ref b)
        = some (some (GoError.Errorf ((chans b).name ++ lit ": already set")), channels))
    ∧ (NameMap.index channels (chans b).name = Ptr.nil →
      ChannelNameMap.Add chans channels (Ptr.ref b)
        = some (none, Function.update channels (chans b).name (some (Ptr.ref b))))
    ∧ (NameMap.index clients (clis b).nick = Ptr.ref a → (clis b).HasNick = true →
      ClientNameMap.Add clis clients (Ptr.ref b)
        = some (some GoError.ErrNicknameInUse, clients))
    ∧ (NameMap.index clients (clis b).nick = Ptr.nil → (clis b).HasNick = true →
      ClientNameMap.Add clis clients (Ptr.ref b)
        = some (none, Function.update clients (clis b).nick (some (Ptr.ref b)))) := by
  refine ⟨?_, ?_, ?_, ?_⟩
  · intro h
    simp [ChannelNameMap.Add, h, sprintf_already_set]
  · intro h
    simp [ChannelNameMap.Add, h, NameMap.assign]
  · intro h hn
    simp [ClientNameMap.Add, h, hn]
  · intro h hn
    simp [ClientNameMap.Add, h, hn, NameMap.assign]

theorem NameMap_Add_exclusive_witness :
    (NameMap.index mapC1 (channelHeap 2).name = Ptr.ref 1
      ∧ ChannelNameMap.Add channelHeap mapC1 (Ptr.ref 2)
        = some (some (GoError.Errorf ((channelHeap 2).name ++ lit ": already set")), mapC1))
    ∧ (NameMap.index NameMap.empty (channelHeap 2).name = Ptr.nil
      ∧ ChannelNameMap.Add channelHeap NameMap.empty (Ptr.ref 2)
        = some (none, Function.update NameMap.empty (channelHeap 2).name (some (Ptr.ref 2))))
    ∧ (NameMap.index mapV1 (clientHeap 2).nick = Ptr.ref 1 ∧ (clientHeap 2).HasNick = true
      ∧ ClientNameMap.Add clientHeap mapV1 (Ptr.ref 2)
        = some (some GoError.ErrNicknameInUse, mapV1))
    ∧ (NameMap.index NameMap.empty (clientHeap 2).nick = Ptr.nil
      ∧ (clientHeap 2).HasNick = true
      ∧ ClientNameMap.Add clientHeap NameMap.empty (Ptr.ref 2)
        = some (none, Function.update NameMap.empty (clientHeap 2).nick (some (Ptr.ref 2)))) :=
  ⟨⟨by decide, (NameMap_Add_exclusive channelHeap clientHeap mapC1 mapV1 1 2).1 (by decide)⟩,
   ⟨by decide,
    (NameMap_Add_exclusive channelHeap clientHeap NameMap.empty NameMap.empty 1 2).2.1
      (by decide)⟩,
   ⟨by decide, by decide,
    (NameMap_Add_exclusive channelHeap clientHeap mapC1 mapV1 1 2).2.2.1
      (by decide) (by decide)⟩,
   ⟨by decide, by decide,
    (NameMap_Add_exclusive channelHeap clientHeap NameMap.empty NameMap.empty 1 2).2.2.2
      (by decide) (by decide)⟩⟩

/-- C9: for both name registries and every entity `e`, `Remove(e)` returns, and
its error is non-nil (the "mismatch" error) if and only if the pointer bound
under the name of `e` is not `e` itself: the name is unbound, or bound to
another address, even one holding an equal struct. On error the registry is
unchanged; on success the binding of that name is deleted and nothing else
changes. -/
theorem NameMap_Remove_identity (chans : Nat → Channel) (clis : Nat → Client)
    (channels : ChannelNameMap) (clients : ClientNameMap) (e : Nat) :
    (∃ err channels', ChannelNameMap.Remove chans channels (Ptr.ref e) = some (err, channels')
      ∧ (err ≠ none ↔ NameMap.index channels (chans e).name ≠ Ptr.ref e)
      ∧ (err ≠ none →
          err = some (GoError.Errorf ((chans e).name ++ lit ": mismatch"))
          ∧ channels' = channels)
      ∧ (err = none → channels' = Function.update channels (chans e).name none))
    ∧ (∃ err clients', ClientNameMap.Remove clis clients (Ptr.ref e) = some (err, clients')
      ∧ (err ≠ none ↔ NameMap.index clients (clis e).nick ≠ Ptr.ref e)
      ∧ (err ≠ none →
          err = some (GoError.Errorf ((clis e).nick ++ lit ": mismatch"))
          ∧ clients' = clients)
      ∧ (err = none → clients' = Function.update clients (clis e).nick none)) := by
  constructor
  · by_cases h : NameMap.index channels (chans e).name = Ptr.ref e
    · refine ⟨none, Function.update channels (chans e).name none, ?_, ?_, ?_, ?_⟩
      · simp [ChannelNameMap.Remove, h, NameMap.delete]
      · simp [h]
      · intro hc; exact absurd rfl hc
      · intro _; rfl
    · refine ⟨some (GoError.Errorf ((chans e).name ++ lit ": mismatch")), channels,
        ?_, ?_, ?_, ?_⟩
      · have h' : ¬ Ptr.ref e = NameMap.index channels (chans e).name := fun hc => h hc.symm
        simp [ChannelNameMap.Remove, h', sprintf_mismatch]
      · simp [h]
      · intro _; exact ⟨rfl, rfl⟩
      · intro hc; simp at hc
  · by_cases h : NameMap.index clients (clis e).nick = Ptr.ref e
    · refine ⟨none, Function.update clients (clis e).nick none, ?_, ?_, ?_, ?_⟩
      · simp [ClientNameMap.Remove, h, NameMap.delete]
      · simp [h]
      · intro hc; exact absurd rfl hc
      · intro _; rfl
    · refine ⟨some (GoError.Errorf ((clis e).nick ++ lit ": mismatch")), clients,
        ?_, ?_, ?_, ?_⟩
      · simp [ClientNameMap.Remove, h, sprintf_mismatch]
      · simp [h]
      · intro _; exact ⟨rfl, rfl⟩
      · intro hc; simp at hc

theorem NameMap_Remove_identity_witness :
    channelHeap 1 = channelHeap 2
    ∧ NameMap.index mapC1 (channelHeap 2).name = Ptr.ref 1
    ∧ ((∃ err channels', ChannelNameMap.Remove channelHeap mapC1 (Ptr.ref 2) = some (err, channels')
        ∧ (err ≠ none ↔ NameMap.index mapC1 (channelHeap 2).name ≠ Ptr.ref 2)
        ∧ (err ≠ none →
            err = some (GoError.Errorf ((channelHeap 2).name ++ lit ": mismatch"))
            ∧ channels' = mapC1)
        ∧ (err = none → channels' = Function.update mapC1 (channelHeap 2).name none))
      ∧ (∃ err clients', ClientNameMap.Remove clientHeap mapV1 (Ptr.ref 2) = some (err, clients')
        ∧ (err ≠ none ↔ NameMap.index mapV1 (clientHeap 2).nick ≠ Ptr.ref 2)
        ∧ (err ≠ none →
            err = some (GoError.Errorf ((clientHeap 2).nick ++ lit ": mismatch"))
            ∧ clients' = mapV1)
        ∧ (err = none → clients' = Function.update mapV1 (clientHeap 2).nick none))) :=
  ⟨rfl, by decide, NameMap_Remove_identity channelHeap clientHeap mapC1 mapV1 2⟩

/-- C10: `ClientNameMap.Add(client)` returns `ErrNickMissing` if and only if the
client carries an empty nickname, whatever the registry holds, and then the
registry is unchanged; and no registry built from the empty one by `Add` and
`Remove` calls has the empty nickname as a key. -/
theorem ClientNameMap_Add_nick_missing (heap : Nat → Client) (clients built : ClientNameMap)
    (client : Nat) :
    ((∃ clients', ClientNameMap.Add heap clients (Ptr.ref client)
          = some (some GoError.ErrNickMissing, clients'))
        ↔ (heap client).nick = [])
    ∧ ((heap client).nick = [] →
        ClientNameMap.Add heap clients (Ptr.ref client)
          = some (some GoError.ErrNickMissing, clients))
    ∧ (ClientNameMap.Built built →
        built [] = none ∧ NameMap.index built [] = Ptr.nil) := by
  have hmiss : (heap client).nick = [] →
      ClientNameMap.Add heap clients (Ptr.ref client)
        = some (some GoError.ErrNickMissing, clients) := by
    intro h
    simp [ClientNameMap.Add, Client.HasNick, h]
  refine ⟨⟨?_, fun h => ⟨clients, hmiss h⟩⟩, hmiss, ?_⟩
  · rintro ⟨clients', h⟩
    by_contra hne
    have hn : (heap client).HasNick = true := (hasNick_iff _).mpr hne
    by_cases hb : NameMap.index clients (heap client).nick = Ptr.nil
    · simp [ClientNameMap.Add, hn, hb] at h
    · simp [ClientNameMap.Add, hn, hb] at h
  · intro hb
    have h0 := built_empty_key_absent built hb
    exact ⟨h0, by simp [NameMap.index, h0]⟩

theorem ClientNameMap_Add_nick_missing_witness :
    ((∃ clients', ClientNameMap.Add clientHeapNoNick mapV1 (Ptr.ref 2)
          = some (some GoError.ErrNickMissing, clients'))
        ↔ (clientHeapNoNick 2).nick = [])
    ∧ ((clientHeapNoNick 2).nick = []
        ∧ ClientNameMap.Add clientHeapNoNick mapV1 (Ptr.ref 2)
          = some (some GoError.ErrNickMissing, mapV1))
    ∧ (ClientNameMap.Built mapV1
        ∧ mapV1 [] = none ∧ NameMap.index mapV1 [] = Ptr.nil) :=
  have hb : ClientNameMap.Built mapV1 :=
    ClientNameMap.Built.add clientHeap NameMap.empty mapV1 (Ptr.ref 1) none
      ClientNameMap.Built.make rfl
  ⟨(ClientNameMap_Add_nick_missing clientHeapNoNick mapV1 mapV1 2).1,
   ⟨rfl, (ClientNameMap_Add_nick_missing clientHeapNoNick mapV1 mapV1 2).2.1 rfl⟩,
   ⟨hb, (ClientNameMap_Add_nick_missing clientHeapNoNick mapV1 mapV1 2).2.2 hb⟩⟩

/-! ## Claims about the registries, continued -/

/-- C11 (counterexample): on the empty registry, `ChannelNameMap.Add` of a
channel whose name is the empty string returns nil and binds the empty name. -/
theorem ChannelNameMap_Add_empty_name_accepted :
    (channelHeapNoName 1).name = []
    ∧ ChannelNameMap.Add channelHeapNoName NameMap.empty (Ptr.ref 1)
      = some (none, NameMap.assign NameMap.empty [] (Ptr.ref 1))
    ∧ NameMap.assign NameMap.empty [] (Ptr.ref 1) ≠ NameMap.empty := by
  refine ⟨rfl, rfl, ?_⟩
  intro h
  have h0 := congrFun h []
  simp [NameMap.assign, NameMap.empty] at h0

/-- C11 (amended): `ChannelNameMap.Add` has no MissingKey condition. For a
channel whose name is the empty string it returns a non-nil error, the
"already set" one, and leaves the registry unchanged when the empty name is
bound; when the empty name is not bound it returns nil and binds the empty
name to the channel. -/
theorem ChannelNameMap_Add_empty_name (heap : Nat → Channel) (channels : ChannelNameMap)
    (a : Nat) (h : (heap a).name = []) :
    (NameMap.index channels [] ≠ Ptr.nil →
      ChannelNameMap.Add heap channels (Ptr.ref a)
        = some (some (GoError.Errorf (lit ": already set")), channels))
    ∧ (NameMap.index channels [] = Ptr.nil →
      ChannelNameMap.Add heap channels (Ptr.ref a)
        = some (none, Function.update channels [] (some (Ptr.ref a)))) := by
  constructor
  · intro hb
    simp [ChannelNameMap.Add, h, hb, sprintf_already_set]
  · intro hb
    simp [ChannelNameMap.Add, h, hb, NameMap.assign]

theorem ChannelNameMap_Add_empty_name_witness :
    (channelHeapNoName 2).name = []
    ∧ (NameMap.index (NameMap.assign NameMap.empty [] (Ptr.ref 1)) [] ≠ Ptr.nil
      ∧ ChannelNameMap.Add channelHeapNoName (NameMap.assign NameMap.empty [] (Ptr.ref 1))
          (Ptr.ref 2)
        = some (some (GoError.Errorf (lit ": already set")),
            NameMap.assign NameMap.empty [] (Ptr.ref 1)))
    ∧ (NameMap.index NameMap.empty [] = Ptr.nil
      ∧ ChannelNameMap.Add channelHeapNoName NameMap.empty (Ptr.ref 2)
        = some (none, Function.update NameMap.empty [] (some (Ptr.ref 2)))) :=
  ⟨rfl,
   ⟨by decide,
    (ChannelNameMap_Add_empty_name channelHeapNoName
      (NameMap.assign NameMap.empty [] (Ptr.ref 1)) 2 rfl).1 (by decide)⟩,
   ⟨by decide,
    (ChannelNameMap_Add_empty_name channelHeapNoName NameMap.empty 2 rfl).2 (by decide)⟩⟩

theorem channel_builtOn_bound (heap : Nat → Channel) (m : ChannelNameMap)
    (h : ChannelNameMap.BuiltOn heap m) :
    ∀ n p, m n = some p → ∃ a, p = Ptr.ref a ∧ (heap a).name = n := by
  induction h with
  | make => intro n p hp; simp [NameMap.empty] at hp
  | add channels channels' channel err _ hadd ih =>
    cases channel with
    | nil => simp [ChannelNameMap.Add] at hadd
    | ref addr =>
      by_cases hb : NameMap.index channels (heap addr).name = Ptr.nil
      · simp [ChannelNameMap.Add, hb] at hadd
        intro n p hp
        rw [← hadd.2, NameMap.assign] at hp
        by_cases hn : n = (heap addr).name
        · rw [hn, Function.update_same] at hp
          exact ⟨addr, (Option.some.inj hp).symm, hn.symm⟩
        · rw [Function.update_noteq hn] at hp
          exact ih n p hp
      · simp [ChannelNameMap.Add, hb] at hadd
        rw [← hadd.2]
        exact ih
  | remove channels channels' channel err _ hrem ih =>
    cases channel with
    | nil => simp [ChannelNameMap.Remove] at hrem
    | ref addr =>
      by_cases hb : Ptr.ref addr = NameMap.index channels (heap addr).name
      · simp [ChannelNameMap.Remove, ← hb] at hrem
        intro n p hp
        rw [← hrem.2, NameMap.delete] at hp
        by_cases hn : n = (heap addr).name
        · rw [hn, Function.update_same] at hp
          exact absurd hp (by simp)
        · rw [Function.update_noteq hn] at hp
          exact ih n p hp
      · simp [ChannelNameMap.Remove, hb] at hrem
        rw [← hrem.2]
        exact ih

theorem client_builtOn_bound (heap : Nat → Client) (m : ClientNameMap)
    (h : ClientNameMap.BuiltOn heap m) :
    ∀ n p, m n = some p → ∃ a, p = Ptr.ref a ∧ (heap a).nick = n := by
  induction h with
  | make => intro n p hp; simp [NameMap.empty] at hp
  | add clients clients' client err _ hadd ih =>
    cases client with
    | nil => simp [ClientNameMap.Add] at hadd
    | ref addr =>
      by_cases hn : (heap addr).HasNick = true
      · by_cases hb : NameMap.index clients (heap addr).nick = Ptr.nil
        · simp [ClientNameMap.Add, hn, hb] at hadd
          intro n p hp
          rw [← hadd.2, NameMap.assign] at hp
          by_cases hk : n = (heap addr).nick
          · rw [hk, Function.update_same] at hp
            exact ⟨addr, (Option.some.inj hp).symm, hk.symm⟩
          · rw [Function.update_noteq hk] at hp
            exact ih n p hp
        · simp [ClientNameMap.Add, hn, hb] at hadd
          rw [← hadd.2]
          exact ih
      · simp [ClientNameMap.Add, hn] at hadd
        rw [← hadd.2]
        exact ih
  | remove clients clients' client err _ hrem ih =>
    cases client with
    | nil => simp [ClientNameMap.Remove] at hrem
    | ref addr =>
      by_cases hb : NameMap.index clients (heap addr).nick = Ptr.ref addr
      · simp [ClientNameMap.Remove, hb] at hrem
        intro n p hp
        rw [← hrem.2, NameMap.delete] at hp
        by_cases hk : n = (heap addr).nick
        · rw [hk, Function.update_same] at hp
          exact absurd hp (by simp)
        · rw [Function.update_noteq hk] at hp
          exact ih n p hp
      · simp [ClientNameMap.Remove, hb] at hrem
        rw [← hrem.2]
        exact ih

/-- C12: in every channel registry and every client registry obtained from the
empty one by `Add` and `Remove` calls over a heap whose names do not change,
every key `n` is bound to a non-nil pointer to an entity whose own name is `n`;
hence no entity is bound under two names, and the registry is one-to-one
between its keys and the pointers it stores. -/
theorem NameMap_built_bijection (chans : Nat → Channel) (clis : Nat → Client)
    (channels : ChannelNameMap) (clients : ClientNameMap)
    (hch : ChannelNameMap.BuiltOn chans channels) (hcl : ClientNameMap.BuiltOn clis clients) :
    (∀ n p, channels n = some p → ∃ a, p = Ptr.ref a ∧ (chans a).name = n)
    ∧ (∀ n n' p, channels n = some p → channels n' = some p → n = n')
    ∧ (∀ n p, clients n = some p → ∃ a, p = Ptr.ref a ∧ (clis a).nick = n)
    ∧ (∀ n n' p, clients n = some p → clients n' = some p → n = n') := by
  have h1 := channel_builtOn_bound chans channels hch
  have h2 := client_builtOn_bound clis clients hcl
  refine ⟨h1, ?_, h2, ?_⟩
  · intro n n' p hn hn'
    obtain ⟨a, ha, hna⟩ := h1 n p hn
    obtain ⟨a', ha', hna'⟩ := h1 n' p hn'
    have haa : a = a' := by
      have := ha.symm.trans ha'
      exact Ptr.ref.inj this
    rw [← hna, ← hna', haa]
  · intro n n' p hn hn'
    obtain ⟨a, ha, hna⟩ := h2 n p hn
    obtain ⟨a', ha', hna'⟩ := h2 n' p hn'
    have haa : a = a' := by
      have := ha.symm.trans ha'
      exact Ptr.ref.inj this
    rw [← hna, ← hna', haa]

theorem NameMap_built_bijection_witness :
    ChannelNameMap.BuiltOn channelHeap mapC1 ∧ ClientNameMap.BuiltOn clientHeap mapV1
    ∧ ((∀ n p, mapC1 n = some p → ∃ a, p = Ptr.ref a ∧ (channelHeap a).name = n)
      ∧ (∀ n n' p, mapC1 n = some p → mapC1 n' = some p → n = n')
      ∧ (∀ n p, mapV1 n = some p → ∃ a, p = Ptr.ref a ∧ (clientHeap a).nick = n)
      ∧ (∀ n n' p, mapV1 n = some p → mapV1 n' = some p → n = n')) :=
  have hch : ChannelNameMap.BuiltOn channelHeap mapC1 :=
    ChannelNameMap.BuiltOn.add NameMap.empty mapC1 (Ptr.ref 1) none
      ChannelNameMap.BuiltOn.make rfl
  have hcl : ClientNameMap.BuiltOn clientHeap mapV1 :=
    ClientNameMap.BuiltOn.add NameMap.empty mapV1 (Ptr.ref 1) none
      ClientNameMap.BuiltOn.make rfl
  ⟨hch, hcl, NameMap_built_bijection channelHeap clientHeap mapC1 mapV1 hch hcl⟩

/-- C13: after `s.Add(c)`, `Has(c)` is true and `HasMode(c, m)` is false for
every mode, whatever `s` held for `c` before; for every other client `d`,
`Has(d)` and `HasMode(d, m)` are what they were; `Add` returns no error and
cannot panic on a map made by `make`. And `HasMode(c, m)` is false whenever
`Has(c)` is false. -/
theorem ClientSet_Add_frame (s : ClientSet) (c d : Ptr) (m : ChannelMode) :
    ClientSet.Has (ClientSet.Add s c) c = true
    ∧ ClientSet.HasMode (ClientSet.Add s c) c m = false
    ∧ (d ≠ c → ClientSet.Has (ClientSet.Add s c) d = ClientSet.Has s d
        ∧ ClientSet.HasMode (ClientSet.Add s c) d m = ClientSet.HasMode s d m)
    ∧ (ClientSet.Has s c = false → ClientSet.HasMode s c m = false) := by
  refine ⟨?_, ?_, ?_, ?_⟩
  · simp [ClientSet.Has, ClientSet.Add]
  · simp [ClientSet.HasMode, ClientSet.Add]
  · intro hd
    simp [ClientSet.Has, ClientSet.HasMode, ClientSet.Add, Function.update_noteq hd]
  · intro h
    cases hc : s c with
    | none => simp [ClientSet.HasMode, hc]
    | some modes => simp [ClientSet.Has, hc] at h

theorem ClientSet_Add_frame_witness :
    ClientSet.HasMode (fun _ => some (fun _ => some true)) (Ptr.ref 1) 111 = true
    ∧ Ptr.ref 2 ≠ Ptr.ref 1
    ∧ (ClientSet.Has (ClientSet.Add (fun _ => some (fun _ => some true)) (Ptr.ref 1)) (Ptr.ref 1)
        = true
      ∧ ClientSet.HasMode (ClientSet.Add (fun _ => some (fun _ => some true)) (Ptr.ref 1))
          (Ptr.ref 1) 111 = false
      ∧ (ClientSet.Has (ClientSet.Add (fun _ => some (fun _ => some true)) (Ptr.ref 1)) (Ptr.ref 2)
          = ClientSet.Has (fun _ => some (fun _ => some true)) (Ptr.ref 2)
        ∧ ClientSet.HasMode (ClientSet.Add (fun _ => some (fun _ => some true)) (Ptr.ref 1))
            (Ptr.ref 2) 111
          = ClientSet.HasMode (fun _ => some (fun _ => some true)) (Ptr.ref 2) 111)) :=
  ⟨rfl, by decide,
   (ClientSet_Add_frame (fun _ => some (fun _ => some true)) (Ptr.ref 1) (Ptr.ref 2) 111).1,
   (ClientSet_Add_frame (fun _ => some (fun _ => some true)) (Ptr.ref 1) (Ptr.ref 2) 111).2.1,
   (ClientSet_Add_frame (fun _ => some (fun _ => some true)) (Ptr.ref 1) (Ptr.ref 2) 111).2.2.1
     (by decide)⟩

/-! ## Claims about text replies -/

theorem sprintf_string_line (a b c : GoString) :
    Sprintf (lit ":%s %s %s") [a, b, c] = lit ":" ++ a ++ lit " " ++ b ++ lit " " ++ c := by
  have hf : lit ":%s %s %s" = [58, 37, 115, 32, 37, 115, 32, 37, 115] := by decide
  have h1 : lit ":" = [58] := by decide
  have h2 : lit " " = [32] := by decide
  rw [hf, h1, h2]
  simp [Sprintf, extraArgs]

/-- For a channel name without a percent sign the JOIN line carries the name as
it is. -/
theorem rplJoin_format_plain (client : Client) (channel : Channel) (viewer : Client)
    (h : ∀ x ∈ channel.name, x ≠ 37) :
    (RplJoin client channel).Format viewer
      = [lit ":" ++ client.Id ++ lit " JOIN " ++ channel.name] := by
  have hj : lit " JOIN " = lit " " ++ lit "JOIN" ++ lit " " := by decide
  simp only [StringReply.Format, RplJoin, NewStringReply, BaseReply.SetSource,
    sprintf_string_line, sprintf_plain channel.name h, Client.toIdentifier, hj]
  simp

/-- C19 (the code at a failing input): for the channel named `#100%` and the
client whose id is `n!u@h`, `RplJoin(client, channel).Format(viewer)` is the
line `:n!u@h JOIN #100%!(NOVERB)`: the name is used as a format, and its
percent sign is read as a directive without verb. -/
theorem RplJoin_Format_percent :
    (RplJoin clientN channelPercent).Format viewerV = [lit ":n!u@h JOIN #100%!(NOVERB)"]
    ∧ (RplJoin clientN channelPercent).Format viewerV
      ≠ [lit ":" ++ clientN.Id ++ lit " JOIN " ++ channelPercent.name] := by
  decide

/-! ## Claims about the inbound pump -/

theorem readString_spec (input : List UInt8) (d : UInt8) :
    ((ReadString input d).2.2 = true ∧ d ∉ input)
    ∨ ((ReadString input d).2.2 = false
      ∧ ∃ s, d ∉ s ∧ (ReadString input d).1 = s ++ [d]
        ∧ input = s ++ [d] ++ (ReadString input d).2.1) := by
  induction input with
  | nil => left; simp [ReadString]
  | cons b rest ih =>
    by_cases hb : b = d
    · right
      refine ⟨by simp [ReadString, hb], [], by simp, by simp [ReadString, hb], ?_⟩
      simp [ReadString, hb]
    · rcases ih with ⟨he, hn⟩ | ⟨he, s, hs, hl, hin⟩
      · left
        refine ⟨by simp [ReadString, hb, he], ?_⟩
        intro hmem
        rcases List.mem_cons.mp hmem with h | h
        · exact hb h.symm
        · exact hn h
      · right
        refine ⟨by simp [ReadString, hb, he], b :: s, ?_, by simp [ReadString, hb, hl], ?_⟩
        · intro hmem
          rcases List.mem_cons.mp hmem with h | h
          · exact hb h.symm
          · exact hs h
        · simp only [ReadString, hb, if_false]
          rw [List.cons_append, List.cons_append, ← hin]

theorem trimRight_crlf (x : GoString) :
    TrimRight x (lit "\r\n") = x.rdropWhile (fun b => decide (b = 13 ∨ b = 10)) := by
  have hc : lit "\r\n" = [13, 10] := by decide
  have hf : (fun b : UInt8 => decide (b ∈ ([13, 10] : List UInt8)))
      = (fun b => decide (b = 13 ∨ b = 10)) := by
    funext b
    simp
  rw [TrimRight, hc, hf, List.rdropWhile]

theorem stripped_line_shape (s : List UInt8) (hs : (10 : UInt8) ∉ s)
    (hne : (s ++ [10]).rdropWhile (fun b => decide (b = 13 ∨ b = 10)) ≠ []) :
    (10 : UInt8) ∉ (s ++ [10]).rdropWhile (fun b => decide (b = 13 ∨ b = 10))
    ∧ ((s ++ [10]).rdropWhile (fun b => decide (b = 13 ∨ b = 10))).getLast? ≠ some 13 := by
  have hdrop : (s ++ [10]).rdropWhile (fun b => decide (b = 13 ∨ b = 10))
      = s.rdropWhile (fun b => decide (b = 13 ∨ b = 10)) :=
    List.rdropWhile_concat_pos _ _ _ (by simp)
  rw [hdrop] at hne ⊢
  constructor
  · intro hmem
    exact hs ((List.rdropWhile_prefix _ _).subset hmem)
  · intro hlast
    have hnot := List.rdropWhile_last_not (fun b => decide (b = 13 ∨ b = 10)) s hne
    rw [List.getLast?_eq_getLast _ hne] at hlast
    rw [Option.some.inj hlast] at hnot
    simp at hnot

theorem readLinesLoop_spec :
    ∀ (fuel : Nat) (input : List UInt8) (sent : List GoString), input.length < fuel →
      ∃ (segs : List (List UInt8)) (tail : List UInt8),
        (∀ s ∈ segs, (10 : UInt8) ∉ s) ∧ (10 : UInt8) ∉ tail
        ∧ input = (segs.map (fun s => s ++ [10])).flatten ++ tail
        ∧ readLinesLoop fuel input sent
          = some ⟨sent ++ (segs.map (fun s =>
              (s ++ [10]).rdropWhile (fun b => decide (b = 13 ∨ b = 10)))).filter
                (fun l => decide (l ≠ [])), true⟩ := by
  intro fuel
  induction fuel with
  | zero => intro input sent h; exact absurd h (Nat.not_lt_zero _)
  | succ fuel ih =>
    intro input sent hlen
    rcases readString_spec input 10 with ⟨he, hn⟩ | ⟨he, s, hs, hl, hin⟩
    · refine ⟨[], input, by simp, hn, by simp, ?_⟩
      simp [readLinesLoop, he]
    · have hrest : (ReadString input 10).2.1.length < fuel := by
        have := congrArg List.length hin
        simp at this
        omega
      by_cases hempty : (s ++ [10]).rdropWhile (fun b => decide (b = 13 ∨ b = 10)) = []
      · obtain ⟨segs, tail, hsegs, htail, hcov, hrun⟩ := ih (ReadString input 10).2.1 sent hrest
        refine ⟨s :: segs, tail, ?_, htail, ?_, ?_⟩
        · intro x hx
          rcases List.mem_cons.mp hx with rfl | hx
          · exact hs
          · exact hsegs x hx
        · rw [List.map_cons, List.flatten_cons, List.append_assoc, ← hcov]
          exact hin
        · simp only [readLinesLoop, he, hl, trimRight_crlf, hempty, len, List.length_nil,
            Nat.cast_zero, if_true, Bool.false_eq_true, if_false, hrun, List.map_cons,
            List.filter_cons, ne_eq, not_true_eq_false, decide_False]
      · obtain ⟨segs, tail, hsegs, htail, hcov, hrun⟩ :=
          ih (ReadString input 10).2.1
            (sent ++ [(s ++ [10]).rdropWhile (fun b => decide (b = 13 ∨ b = 10))]) hrest
        refine ⟨s :: segs, tail, ?_, htail, ?_, ?_⟩
        · intro x hx
          rcases List.mem_cons.mp hx with rfl | hx
          · exact hs
          · exact hsegs x hx
        · rw [List.map_cons, List.flatten_cons, List.append_assoc, ← hcov]
          exact hin
        · have hpos : ¬ len ((s ++ [10]).rdropWhile (fun b => decide (b = 13 ∨ b = 10))) = 0 := by
            intro h0
            apply hempty
            apply List.length_eq_zero.mp
            unfold len at h0
            exact_mod_cast h0
          simp only [readLinesLoop, he, hl, trimRight_crlf, hpos, if_false, Bool.false_eq_true,
            hrun, List.map_cons, List.filter_cons, ne_eq, hempty, not_false_eq_true,
            decide_True, if_true, List.append_assoc, List.singleton_append]

/-- C14: on a byte stream that delivers `input` and then ends, `readLines`
returns, having sent on `receive`, in stream order, the segments of `input`
that a `\n` terminates, each without its trailing `\r` and `\n` bytes, except
those that are then empty, and having closed the channel. No line sent is
empty, contains `\n`, or ends with `\r`. The bytes after the last `\n` are not
sent. -/
theorem readLines_delivers (input : List UInt8) :
    ∃ (segs : List (List UInt8)) (tail : List UInt8),
      (∀ s ∈ segs, (10 : UInt8) ∉ s) ∧ (10 : UInt8) ∉ tail
      ∧ input = (segs.map (fun s => s ++ [10])).flatten ++ tail
      ∧ readLines input
        = some ⟨(segs.map (fun s =>
            (s ++ [10]).rdropWhile (fun b => decide (b = 13 ∨ b = 10)))).filter
              (fun l => decide (l ≠ [])), true⟩
      ∧ ∀ l ∈ (segs.map (fun s =>
            (s ++ [10]).rdropWhile (fun b => decide (b = 13 ∨ b = 10)))).filter
              (fun l => decide (l ≠ [])),
          l ≠ [] ∧ (10 : UInt8) ∉ l ∧ l.getLast? ≠ some 13 := by
  obtain ⟨segs, tail, hsegs, htail, hcov, hrun⟩ :=
    readLinesLoop_spec (input.length + 1) input [] (Nat.lt_succ_self _)
  refine ⟨segs, tail, hsegs, htail, hcov, ?_, ?_⟩
  · rw [readLines, hrun]
    simp
  · intro l hl
    rw [List.mem_filter] at hl
    obtain ⟨hmem, hne⟩ := hl
    have hne' : l ≠ [] := by simpa using hne
    obtain ⟨s, hs, rfl⟩ := List.mem_map.mp hmem
    exact ⟨hne', stripped_line_shape s (hsegs s hs) hne'⟩

/-! ## The packing loop, iteration by iteration -/

theorem slice_int {α : Type} (xs : List α) (lo hi : Int) (h0 : 0 ≤ lo) (h1 : lo ≤ hi)
    (h2 : hi ≤ len xs) :
    ∃ ys, slice xs lo hi = some ys ∧ len ys = hi - lo := by
  refine ⟨(xs.drop lo.toNat).take (hi - lo).toNat, ?_, ?_⟩
  · rw [slice, if_pos ⟨h0, h1, h2⟩]
  · unfold len at h2 ⊢
    simp only [List.length_take, List.length_drop]
    omega

/-- The loop function takes one iteration and goes on from the state it
reaches. -/
theorem namesLoop_iter (M : Int) (channel : Channel) (client : Client) (baseLen : Int)
    (nicks : List GoString) (w : Window) (h : w.to_ < len nicks) :
    namesLoop M channel client baseLen nicks w.from_ w.to_ w.lines
      = (namesIter M channel client baseLen nicks w).bind
          (fun w' => namesLoop M channel client baseLen nicks w'.from_ w'.to_ w'.lines) := by
  rw [namesLoop.eq_1, if_pos h, namesIter]
  by_cases hw : w.from_ < w.to_ - 1
  · rw [if_pos hw, if_pos hw]
    cases hs : slice nicks w.from_ w.to_ with
    | none => rfl
    | some window =>
      by_cases hl : tooLong M baseLen window = true
      · simp only [hl, if_true]
        cases hb : slice nicks w.from_ (w.to_ - 1) with
        | none => rfl
        | some batch => rfl
      · simp only [hl, if_false, Bool.false_eq_true]
        rfl
  · rw [if_neg hw, if_neg hw]
    rfl

/-- One iteration from a state with `0 ≤ from < to < len(nicks)` does not panic
and either advances `to` or emits the batch `nicks[from:to-1]`, which it does
only for a window of two names or more that is too long. -/
theorem namesIter_step (M : Int) (channel : Channel) (client : Client) (baseLen : Int)
    (nicks : List GoString) (w : Window) (h0 : 0 ≤ w.from_) (_h1 : w.from_ < w.to_)
    (h2 : w.to_ < len nicks) :
    namesIter M channel client baseLen nicks w = some ⟨w.from_, w.to_ + 1, w.lines⟩
    ∨ (w.from_ < w.to_ - 1 ∧ ∃ window batch,
        slice nicks w.from_ w.to_ = some window ∧ tooLong M baseLen window = true
        ∧ slice nicks w.from_ (w.to_ - 1) = some batch
        ∧ namesIter M channel client baseLen nicks w
          = some ⟨w.to_ - 1, w.to_, w.lines ++ (RplNamReply channel batch).Format client⟩) := by
  by_cases hw : w.from_ < w.to_ - 1
  · obtain ⟨window, hs, _⟩ := slice_int nicks w.from_ w.to_ h0 (by omega) (by omega)
    obtain ⟨batch, hb, _⟩ := slice_int nicks w.from_ (w.to_ - 1) h0 (by omega) (by omega)
    by_cases hl : tooLong M baseLen window = true
    · right
      refine ⟨hw, window, batch, hs, hl, hb, ?_⟩
      simp [namesIter, hw, hs, hl, hb]
    · left
      simp [namesIter, hw, hs, hl]
  · left
    simp [namesIter, hw]

theorem iterates_head (M : Int) (channel : Channel) (client : Client) (baseLen : Int)
    (nicks : List GoString) (w w1 : Window) (h : w.to_ < len nicks)
    (hstep : namesIter M channel client baseLen nicks w = some w1) :
    ∀ (n : Nat) (w2 : Window), Iterates M channel client baseLen nicks w1 n w2 →
      Iterates M channel client baseLen nicks w (n + 1) w2 := by
  intro n w2 hit
  induction hit with
  | zero => exact Iterates.succ 0 w w1 Iterates.zero h hstep
  | succ k w' w'' _ hlt hs ih => exact Iterates.succ (k + 1) w' w'' ih hlt hs

/-- Every state of the loop started with `from, to := 0, 1` has
`0 ≤ from < to`, and `to ≤ len(nicks)` unless the list is empty and `to` is
still 1. -/
theorem iterates_window (M : Int) (channel : Channel) (client : Client) (baseLen : Int)
    (nicks : List GoString) (n : Nat) (w : Window)
    (h : Iterates M channel client baseLen nicks Window.init n w) :
    0 ≤ w.from_ ∧ w.from_ < w.to_ ∧ (w.to_ ≤ len nicks ∨ w.to_ = 1) := by
  induction h with
  | zero => simp [Window.init]
  | succ k w' w'' _ hlt hs ih =>
    obtain ⟨h0, h1, _⟩ := ih
    rcases namesIter_step M channel client baseLen nicks w' h0 h1 hlt with
      hadv | ⟨hw, _, b, _, _, _, hem⟩
    · rw [hadv] at hs
      cases Option.some.inj hs
      exact ⟨h0, by show w'.from_ < w'.to_ + 1; omega,
        Or.inl (by show w'.to_ + 1 ≤ len nicks; omega)⟩
    · rw [hem] at hs
      cases Option.some.inj hs
      exact ⟨by show 0 ≤ w'.to_ - 1; omega, by show w'.to_ - 1 < w'.to_; omega,
        Or.inl (by show w'.to_ ≤ len nicks; omega)⟩

/-- The loop function gives the same result from every state of the run. -/
theorem iterates_namesLoop (M : Int) (channel : Channel) (client : Client) (baseLen : Int)
    (nicks : List GoString) (n : Nat) (w w' : Window)
    (h : Iterates M channel client baseLen nicks w n w') :
    namesLoop M channel client baseLen nicks w.from_ w.to_ w.lines
      = namesLoop M channel client baseLen nicks w'.from_ w'.to_ w'.lines := by
  induction h with
  | zero => rfl
  | succ k w1 w2 _ hlt hs ih =>
    rw [ih, namesLoop_iter M channel client baseLen nicks w1 hlt, hs]
    rfl

/-- From a state with `0 ≤ from < to` the loop leaves after at most
`2 * (len(nicks) - to) + 1` iterations, without panic. -/
theorem iterates_exit (M : Int) (channel : Channel) (client : Client) (baseLen : Int)
    (nicks : List GoString) :
    ∀ (n : Nat) (w : Window),
      (2 * (len nicks - w.to_) + (if w.from_ < w.to_ - 1 then 1 else 0)).toNat = n →
      0 ≤ w.from_ → w.from_ < w.to_ →
      ∃ (k : Nat) (w' : Window), k ≤ n
        ∧ Iterates M channel client baseLen nicks w k w' ∧ ¬ w'.to_ < len nicks
        ∧ namesLoop M channel client baseLen nicks w.from_ w.to_ w.lines
          = some (w'.from_, w'.to_, w'.lines) := by
  intro n
  induction n using Nat.strong_induction_on with
  | _ n ih =>
    intro w hn h0 h1
    by_cases hlt : w.to_ < len nicks
    · rcases namesIter_step M channel client baseLen nicks w h0 h1 hlt with
        hadv | ⟨hw, _, b, _, _, _, hem⟩
      · have hm : (2 * (len nicks - (w.to_ + 1))
            + (if w.from_ < (w.to_ + 1) - 1 then 1 else 0)).toNat < n := by
          split at hn <;> split <;> omega
        obtain ⟨k, w', hk, hit, hex, hrun⟩ :=
          ih _ hm ⟨w.from_, w.to_ + 1, w.lines⟩ rfl h0 (by show w.from_ < w.to_ + 1; omega)
        refine ⟨k + 1, w', by omega,
          iterates_head M channel client baseLen nicks w _ hlt hadv k w' hit, hex, ?_⟩
        rw [namesLoop_iter M channel client baseLen nicks w hlt, hadv]
        exact hrun
      · have hm : (2 * (len nicks - w.to_)
            + (if w.to_ - 1 < w.to_ - 1 then 1 else 0)).toNat < n := by
          rw [if_pos hw] at hn
          rw [if_neg (by omega)]
          omega
        obtain ⟨k, w', hk, hit, hex, hrun⟩ :=
          ih _ hm ⟨w.to_ - 1, w.to_, w.lines ++ (RplNamReply channel b).Format client⟩ rfl
            (by show 0 ≤ w.to_ - 1; omega) (by show w.to_ - 1 < w.to_; omega)
        refine ⟨k + 1, w', by omega,
          iterates_head M channel client baseLen nicks w _ hlt hem k w' hit, hex, ?_⟩
        rw [namesLoop_iter M channel client baseLen nicks w hlt, hem]
        exact hrun
    · exact ⟨0, w, Nat.zero_le _, Iterates.zero, hlt, namesLoop_exit _ _ _ _ _ _ _ _ hlt⟩

theorem namesIter_shape (M : Int) (channel : Channel) (client : Client) (baseLen : Int)
    (nicks : List GoString) (w w' : Window)
    (hstep : namesIter M channel client baseLen nicks w = some w') :
    (w'.to_ = w.to_ + 1 ∧ w'.from_ = w.from_ ∧ w'.lines = w.lines)
    ∨ (w'.to_ = w.to_ ∧ w'.from_ = w'.to_ - 1
      ∧ namesIter M channel client baseLen nicks w' = some ⟨w'.from_, w'.to_ + 1, w'.lines⟩) := by
  unfold namesIter at hstep
  by_cases hw : w.from_ < w.to_ - 1
  · rw [if_pos hw] at hstep
    cases hs : slice nicks w.from_ w.to_ with
    | none => simp [hs] at hstep
    | some window =>
      by_cases hl : tooLong M baseLen window = true
      · cases hb : slice nicks w.from_ (w.to_ - 1) with
        | none => simp [hs, hl, hb] at hstep
        | some batch =>
          simp only [hs, hl, hb, if_true] at hstep
          cases Option.some.inj hstep
          right
          refine ⟨rfl, rfl, ?_⟩
          simp [namesIter]
      · simp only [hs, hl, if_false, Bool.false_eq_true] at hstep
        cases Option.some.inj hstep
        left
        exact ⟨rfl, rfl, rfl⟩
  · rw [if_neg hw] at hstep
    cases Option.some.inj hstep
    left
    exact ⟨rfl, rfl, rfl⟩

/-! ## Claims about the run of the packing loop -/

/-- C16: in every state `(from, to)` that the loop of `NamesReply.Format`
reaches from `from, to := 0, 1`, `0 ≤ from < to`, and `to ≤ len(nicks)` unless
the list is empty. When the window is measured (`to < len(nicks)` and
`from < to - 1`), `nicks[from:to]` is in range and holds `to - from ≥ 2` names,
and the batch `nicks[from:to-1]` is in range and not empty; when the loop has
left and `from < len(nicks)`, the batch `nicks[from:]` is in range and not
empty. The state is one the loop function passes through. -/
theorem NamesReply_Format_window (M : Int) (channel : Channel) (client : Client)
    (baseLen : Int) (nicks : List GoString) (n : Nat) (w : Window)
    (h : Iterates M channel client baseLen nicks Window.init n w) :
    (0 ≤ w.from_ ∧ w.from_ < w.to_ ∧ (w.to_ ≤ len nicks ∨ nicks = []))
    ∧ (w.to_ < len nicks → w.from_ < w.to_ - 1 →
        ∃ window batch, slice nicks w.from_ w.to_ = some window
          ∧ len window = w.to_ - w.from_ ∧ 2 ≤ len window
          ∧ slice nicks w.from_ (w.to_ - 1) = some batch ∧ batch ≠ [])
    ∧ (¬ w.to_ < len nicks → w.from_ < len nicks →
        ∃ batch, slice nicks w.from_ (len nicks) = some batch ∧ batch ≠ [])
    ∧ namesLoop M channel client baseLen nicks 0 1 []
      = namesLoop M channel client baseLen nicks w.from_ w.to_ w.lines := by
  obtain ⟨h0, h1, h2⟩ := iterates_window M channel client baseLen nicks n w h
  have hne : ∀ (ys : List GoString), 0 < len ys → ys ≠ [] := by
    intro ys hpos hnil
    rw [hnil] at hpos
    simp [len] at hpos
  refine ⟨⟨h0, h1, ?_⟩, ?_, ?_, ?_⟩
  · rcases h2 with h2 | h2
    · exact Or.inl h2
    · by_cases hnil : nicks = []
      · exact Or.inr hnil
      · left
        have : 0 < nicks.length := List.length_pos.mpr hnil
        unfold len
        omega
  · intro hlt hw
    obtain ⟨window, hs, hlw⟩ := slice_int nicks w.from_ w.to_ h0 (by omega) (by omega)
    obtain ⟨batch, hb, hlb⟩ := slice_int nicks w.from_ (w.to_ - 1) h0 (by omega) (by omega)
    exact ⟨window, batch, hs, hlw, by omega, hb, hne batch (by omega)⟩
  · intro _ hfl
    obtain ⟨batch, hb, hlb⟩ := slice_int nicks w.from_ (len nicks) h0 (by omega) (le_refl _)
    exact ⟨batch, hb, hne batch (by omega)⟩
  · exact iterates_namesLoop M channel client baseLen nicks n Window.init w h

theorem NamesReply_Format_window_witness :
    Iterates 25 channelChan viewerV 17 channelChan.Nicks Window.init 1 ⟨0, 2, []⟩
    ∧ ((0 ≤ (0 : Int) ∧ (0 : Int) < 2 ∧ ((2 : Int) ≤ len channelChan.Nicks ∨ channelChan.Nicks = []))
      ∧ ((2 : Int) < len channelChan.Nicks → (0 : Int) < 2 - 1 →
          ∃ window batch, slice channelChan.Nicks 0 2 = some window
            ∧ len window = 2 - 0 ∧ 2 ≤ len window
            ∧ slice channelChan.Nicks 0 (2 - 1) = some batch ∧ batch ≠ [])
      ∧ (¬ (2 : Int) < len channelChan.Nicks → (0 : Int) < len channelChan.Nicks →
          ∃ batch, slice channelChan.Nicks 0 (len channelChan.Nicks) = some batch ∧ batch ≠ [])
      ∧ namesLoop 25 channelChan viewerV 17 channelChan.Nicks 0 1 []
        = namesLoop 25 channelChan viewerV 17 channelChan.Nicks 0 2 []) :=
  have hit : Iterates 25 channelChan viewerV 17 channelChan.Nicks Window.init 1 ⟨0, 2, []⟩ :=
    Iterates.succ 0 Window.init ⟨0, 2, []⟩ Iterates.zero (by decide) rfl
  ⟨hit, NamesReply_Format_window 25 channelChan viewerV 17 channelChan.Nicks 1 ⟨0, 2, []⟩ hit⟩

/-- C20: for every nickname list and every bound, the loop of
`NamesReply.Format` leaves after at most `2 * len(nicks)` iterations, without
panic, and the loop function returns the state it leaves in. An iteration
never decreases `to`: either it advances `to` by one and keeps `from` and the
lines, or it emits, keeps `to`, leaves the one-name window `from = to - 1`, and
the iteration after it advances `to`. -/
theorem namesLoop_terminates (M : Int) (channel : Channel) (client : Client) (baseLen : Int)
    (nicks : List GoString) (w w' : Window)
    (hstep : namesIter M channel client baseLen nicks w = some w') :
    (∃ (n : Nat) (wf : Window), n ≤ 2 * nicks.length
      ∧ Iterates M channel client baseLen nicks Window.init n wf ∧ ¬ wf.to_ < len nicks
      ∧ namesLoop M channel client baseLen nicks 0 1 [] = some (wf.from_, wf.to_, wf.lines))
    ∧ w.to_ ≤ w'.to_
    ∧ ((w'.to_ = w.to_ + 1 ∧ w'.from_ = w.from_ ∧ w'.lines = w.lines)
      ∨ (w'.to_ = w.to_ ∧ w'.from_ = w'.to_ - 1
        ∧ namesIter M channel client baseLen nicks w'
          = some ⟨w'.from_, w'.to_ + 1, w'.lines⟩)) := by
  have hshape := namesIter_shape M channel client baseLen nicks w w' hstep
  refine ⟨?_, ?_, hshape⟩
  · obtain ⟨k, wf, hk, hit, hex, hrun⟩ :=
      iterates_exit M channel client baseLen nicks _ Window.init rfl (by simp [Window.init])
        (by simp [Window.init])
    refine ⟨k, wf, ?_, hit, hex, hrun⟩
    have hb : (2 * (len nicks - Window.init.to_)
        + (if Window.init.from_ < Window.init.to_ - 1 then 1 else 0)).toNat
          ≤ 2 * nicks.length := by
      simp only [Window.init, len]
      split <;> omega
    omega
  · rcases hshape with ⟨h1, _, _⟩ | ⟨h1, _, _⟩ <;> omega

theorem namesLoop_terminates_witness :
    namesIter 25 channelChan viewerV 17 channelChan.Nicks ⟨0, 2, []⟩
      = some ⟨1, 2, [] ++ (RplNamReply channelChan [lit "alice"]).Format viewerV⟩
    ∧ ((∃ (n : Nat) (wf : Window), n ≤ 2 * channelChan.Nicks.length
        ∧ Iterates 25 channelChan viewerV 17 channelChan.Nicks Window.init n wf
        ∧ ¬ wf.to_ < len channelChan.Nicks
        ∧ namesLoop 25 channelChan viewerV 17 channelChan.Nicks 0 1 []
          = some (wf.from_, wf.to_, wf.lines))
      ∧ (2 : Int) ≤ 2
      ∧ (((2 : Int) = 2 + 1 ∧ (1 : Int) = 0
          ∧ [] ++ (RplNamReply channelChan [lit "alice"]).Format viewerV = [])
        ∨ ((2 : Int) = 2 ∧ (1 : Int) = 2 - 1
          ∧ namesIter 25 channelChan viewerV 17 channelChan.Nicks
              ⟨1, 2, [] ++ (RplNamReply channelChan [lit "alice"]).Format viewerV⟩
            = some ⟨1, 2 + 1, [] ++ (RplNamReply channelChan [lit "alice"]).Format viewerV⟩))) :=
  have hstep : namesIter 25 channelChan viewerV 17 channelChan.Nicks ⟨0, 2, []⟩
      = some ⟨1, 2, [] ++ (RplNamReply channelChan [lit "alice"]).Format viewerV⟩ := by
    have hs : slice channelChan.Nicks 0 2 = some [lit "alice", lit "bob"] := by decide
    have hb : slice channelChan.Nicks 0 1 = some [lit "alice"] := by decide
    have hl : tooLong 25 17 [lit "alice", lit "bob"] = true := by decide
    simp [namesIter, hs, hb, hl]
  ⟨hstep, namesLoop_terminates 25 channelChan viewerV 17 channelChan.Nicks ⟨0, 2, []⟩ _ hstep⟩

/-! ## Greedy packing -/

theorem window_snoc {α : Type} (nicks : List α) (f t : Nat) (hft : f + 1 < t)
    (ht : t ≤ nicks.length) :
    ∃ x, nicks.drop (t - 1) = x :: nicks.drop t
      ∧ (nicks.drop f).take (t - f) = (nicks.drop f).take (t - 1 - f) ++ [x] := by
  have hlt : t - 1 < nicks.length := by omega
  have h1 : nicks.drop (t - 1) = nicks[t - 1] :: nicks.drop (t - 1 + 1) :=
    List.drop_eq_getElem_cons hlt
  have ht1 : t - 1 + 1 = t := by omega
  rw [ht1] at h1
  refine ⟨nicks[t - 1], h1, ?_⟩
  have hdd : (nicks.drop f).drop (t - 1 - f) = nicks.drop (t - 1) := by
    rw [List.drop_drop]
    congr 1
    omega
  have hD : nicks.drop f = (nicks.drop f).take (t - 1 - f) ++ nicks[t - 1] :: nicks.drop t := by
    rw [← h1, ← hdd, List.take_append_drop]
  have hlen : ((nicks.drop f).take (t - 1 - f)).length = t - 1 - f := by
    simp only [List.length_take, List.length_drop]
    omega
  have htf : t - f = ((nicks.drop f).take (t - 1 - f)).length + 1 := by omega
  generalize (nicks.drop f).take (t - 1 - f) = B at hD hlen htf ⊢
  rw [hD, htf, List.take_append]
  simp

theorem cover_head {α : Type} (L : List (List α)) (hne : ∀ b ∈ L, b ≠ []) (x : α) (X : List α)
    (h : L.flatten = x :: X) : ∀ y ∈ L.head?, ∃ rest, y = x :: rest := by
  intro y hy
  cases L with
  | nil => simp at hy
  | cons l Lr =>
    simp at hy
    subst hy
    cases hl : l with
    | nil => exact absurd hl (hne l (by simp))
    | cons a r =>
      rw [hl] at h
      simp at h
      exact ⟨r, by rw [h.1]⟩

/-- From a state with `from < to ≤ len(nicks)` in which the window without its
last name, `nicks[from:to-1]`, holds at most one name or is not too long, the
loop leaves having emitted batches that are not empty, cover
`nicks[from:from']`, each hold one name or are not too long, and each become
too long when the first name of the next batch (the last being
`nicks[from':]`) is added. -/
theorem namesLoop_greedy (M : Int) (channel : Channel) (client : Client) (baseLen : Int)
    (nicks : List GoString) :
    ∀ (n f t : Nat) (lines : List GoString),
      2 * (nicks.length - t) + (if f + 1 < t then 1 else 0) = n → f < t → t ≤ nicks.length →
      (t ≤ f + 2 ∨ tooLong M baseLen ((nicks.drop f).take (t - 1 - f)) = false) →
      ∃ (f' : Nat) (bs : List (List GoString)),
        namesLoop M channel client baseLen nicks (f : Int) (t : Int) lines
            = some ((f' : Int), (nicks.length : Int),
                lines ++ bs.map (namesLine channel.server.Id client.Nick channel.name))
          ∧ f ≤ f' ∧ f' < nicks.length ∧ (∀ b ∈ bs, b ≠ [])
          ∧ bs.flatten ++ nicks.drop f' = nicks.drop f
          ∧ (∀ b ∈ bs, b.length = 1 ∨ tooLong M baseLen b = false)
          ∧ List.Chain' (fun b b' => ∃ x rest, b' = x :: rest
              ∧ tooLong M baseLen (b ++ [x]) = true) (bs ++ [nicks.drop f']) := by
  intro n
  induction n using Nat.strong_induction_on with
  | _ n ih =>
    intro f t lines hn hft htl hprev
    by_cases hlt : t < nicks.length
    · have hlt' : (t : Int) < len nicks := by unfold len; omega
      rw [namesLoop.eq_1, if_pos hlt']
      have hnext : ∀ lines' : List GoString,
          (t + 1 ≤ f + 2 ∨ tooLong M baseLen ((nicks.drop f).take (t + 1 - 1 - f)) = false) →
          ∃ (f' : Nat) (bs : List (List GoString)),
          namesLoop M channel client baseLen nicks (f : Int) ((t : Int) + 1) lines'
              = some ((f' : Int), (nicks.length : Int),
                  lines' ++ bs.map (namesLine channel.server.Id client.Nick channel.name))
            ∧ f ≤ f' ∧ f' < nicks.length ∧ (∀ b ∈ bs, b ≠ [])
            ∧ bs.flatten ++ nicks.drop f' = nicks.drop f
            ∧ (∀ b ∈ bs, b.length = 1 ∨ tooLong M baseLen b = false)
            ∧ List.Chain' (fun b b' => ∃ x rest, b' = x :: rest
                ∧ tooLong M baseLen (b ++ [x]) = true) (bs ++ [nicks.drop f']) := by
        intro lines' hp
        have hm : 2 * (nicks.length - (t + 1)) + (if f + 1 < t + 1 then 1 else 0) < n := by
          split at hn <;> split <;> omega
        have := ih _ hm f (t + 1) lines' rfl (by omega) (by omega) hp
        simpa using this
      by_cases hw : f + 1 < t
      · have hw' : (f : Int) < (t : Int) - 1 := by omega
        rw [if_pos hw', slice_nat nicks f t (by omega) (by omega)]
        simp only []
        by_cases hlong : tooLong M baseLen ((nicks.drop f).take (t - f)) = true
        · rw [if_pos hlong]
          have hcast : (t : Int) - 1 = ((t - 1 : Nat) : Int) := by omega
          rw [hcast, slice_nat nicks f (t - 1) (by omega) (by omega)]
          simp only []
          have hm : 2 * (nicks.length - t) + (if (t - 1) + 1 < t then 1 else 0) < n := by
            rw [if_pos hw] at hn
            rw [if_neg (by omega)]
            omega
          obtain ⟨f', bs, hrun, hf1, hf2, hne, hcov, hfit, hchain⟩ :=
            ih _ hm (t - 1) t (lines ++ (RplNamReply channel
              ((nicks.drop f).take (t - 1 - f))).Format client) rfl (by omega) (by omega)
              (Or.inl (by omega))
          obtain ⟨x, hx, hsnoc⟩ := window_snoc nicks f t hw (by omega)
          have hblen : ((nicks.drop f).take (t - 1 - f)).length = t - 1 - f := by
            simp only [List.length_take, List.length_drop]
            omega
          refine ⟨f', (nicks.drop f).take (t - 1 - f) :: bs, ?_, by omega, hf2, ?_, ?_, ?_, ?_⟩
          · rw [hrun, rplNamReply_format]
            simp
          · intro b hb
            rcases List.mem_cons.mp hb with rfl | hb
            · intro h0
              rw [h0] at hblen
              simp at hblen
              omega
            · exact hne b hb
          · rw [List.flatten_cons, List.append_assoc, hcov]
            have hd : nicks.drop (t - 1) = (nicks.drop f).drop (t - 1 - f) := by
              rw [List.drop_drop]
              congr 1
              omega
            rw [hd, List.take_append_drop]
          · intro b hb
            rcases List.mem_cons.mp hb with rfl | hb
            · rcases hprev with hp | hp
              · left
                rw [hblen]
                omega
              · exact Or.inr hp
            · exact hfit b hb
          · rw [List.cons_append]
            apply List.Chain'.cons' hchain
            have hne' : ∀ b ∈ bs ++ [nicks.drop f'], b ≠ [] := by
              intro b hb
              rcases List.mem_append.mp hb with hb | hb
              · exact hne b hb
              · rw [List.mem_singleton.mp hb]
                intro h0
                have hl0 := congrArg List.length h0
                simp at hl0
                omega
            have hflat : (bs ++ [nicks.drop f']).flatten = x :: nicks.drop t := by
              rw [List.flatten_append, List.flatten_singleton, hcov, hx]
            intro y hy
            obtain ⟨rest, hrest⟩ := cover_head _ hne' x _ hflat y hy
            refine ⟨x, rest, hrest, ?_⟩
            rw [← hsnoc]
            exact hlong
        · rw [if_neg hlong]
          refine hnext lines (Or.inr ?_)
          have he : t + 1 - 1 - f = t - f := by omega
          rw [he]
          simpa using hlong
      · have hw' : ¬ (f : Int) < (t : Int) - 1 := by omega
        rw [if_neg hw']
        exact hnext lines (Or.inl (by omega))
    · have ht : t = nicks.length := by omega
      have hlt' : ¬ (t : Int) < len nicks := by unfold len; omega
      refine ⟨f, [], ?_, le_refl f, by omega, by simp, by simp, by simp, by simp⟩
      rw [namesLoop_exit _ _ _ _ _ _ _ _ hlt', ht]
      simp

theorem format_greedy (channel : Channel) (client : Client) (M : Int) :
    ∃ batches : List (List GoString),
      NamesReply.Format M (NewNamesReply channel) client
        = some (batches.map (namesLine channel.server.Id client.Nick channel.name)
            ++ [endOfNamesLine channel.server.Id client.Nick channel.name])
      ∧ batches.flatten = channel.Nicks
      ∧ (∀ b ∈ batches, b ≠ [])
      ∧ (∀ b ∈ batches.dropLast, b.length = 1
          ∨ tooLong M (len (namesLine channel.server.Id client.Nick channel.name [])) b = false)
      ∧ List.Chain' (fun b b' => ∃ x rest, b' = x :: rest
          ∧ tooLong M (len (namesLine channel.server.Id client.Nick channel.name []))
              (b ++ [x]) = true) batches := by
  have hch : (NewNamesReply channel).channel = channel := rfl
  unfold NamesReply.Format
  simp only [hch, rplNamReply_format, rplEndOfNames_format]
  by_cases hnil : channel.Nicks = []
  · refine ⟨[], ?_, by simp [hnil], by simp, by simp, by simp⟩
    rw [namesLoop_exit _ _ _ _ _ _ _ _ (by simp [hnil, len])]
    simp [hnil, len]
  · have hpos : 0 < channel.Nicks.length := List.length_pos.mpr hnil
    obtain ⟨f', bs, hrun, _, hf2, hne, hcov, hfit, hchain⟩ :=
      namesLoop_greedy M channel client
        (len (namesLine channel.server.Id client.Nick channel.name [])) channel.Nicks
        _ 0 1 [] rfl (by omega) (by omega) (Or.inl (by omega))
    have hrun' : namesLoop M channel client
        (len (namesLine channel.server.Id client.Nick channel.name [])) channel.Nicks 0 1 []
          = some ((f' : Int), (channel.Nicks.length : Int),
              [] ++ bs.map (namesLine channel.server.Id client.Nick channel.name)) := by
      simpa using hrun
    refine ⟨bs ++ [channel.Nicks.drop f'], ?_, ?_, ?_, ?_, hchain⟩
    · rw [hrun']
      have hlt : (f' : Int) < len channel.Nicks := by unfold len; omega
      simp only [if_pos hlt]
      have hs := slice_nat channel.Nicks f' channel.Nicks.length (by omega) (le_refl _)
      have hlen : len channel.Nicks = (channel.Nicks.length : Int) := rfl
      rw [hlen, hs]
      have htake : (channel.Nicks.drop f').take (channel.Nicks.length - f')
          = channel.Nicks.drop f' := by
        apply List.take_of_length_le
        simp
      simp [htake]
    · simpa using hcov
    · intro b hb
      rcases List.mem_append.mp hb with hb | hb
      · exact hne b hb
      · rw [List.mem_singleton.mp hb]
        intro h0
        have hlen := congrArg List.length h0
        simp at hlen
        omega
    · rw [List.dropLast_concat]
      exact hfit

theorem tooLong_iff_line (M : Int) (s v c : GoString) (b : List GoString) (hb : b ≠ []) :
    tooLong M (len (namesLine s v c [])) b = true ↔ len (namesLine s v c b) > M := by
  rw [len_namesLine s v c b, ← joinedLen_eq_len_Join b hb, tooLong]
  simp

/-- C17: greedy maximality. The lines of `NamesReply.Format` are the names-lines
of batches covering the nickname list, then the terminator, and every batch
followed by another one is maximal: with the first nickname of the next batch
added to it, its names-line would be longer than `MAX_REPLY_LEN`. -/
theorem NamesReply_Format_greedy (channel : Channel) (client : Client) (MAX_REPLY_LEN : Int) :
    ∃ batches : List (List GoString),
      NamesReply.Format MAX_REPLY_LEN (NewNamesReply channel) client
        = some (batches.map (namesLine channel.server.Id client.Nick channel.name)
            ++ [endOfNamesLine channel.server.Id client.Nick channel.name])
      ∧ batches.flatten = channel.Nicks
      ∧ List.Chain' (Maximal MAX_REPLY_LEN channel.server.Id client.Nick channel.name)
          batches := by
  obtain ⟨batches, hrun, hcov, _, _, hchain⟩ := format_greedy channel client MAX_REPLY_LEN
  refine ⟨batches, hrun, hcov, hchain.imp ?_⟩
  rintro b b' ⟨x, rest, hb', hlong⟩
  refine ⟨x, rest, hb', ?_⟩
  exact (tooLong_iff_line MAX_REPLY_LEN _ _ _ (b ++ [x]) (by simp)).mp hlong

/-- C18: the lines of `NamesReply.Format` are the names-lines of batches covering
the nickname list, then the terminator, and every names-line but the last has
at most `MAX_REPLY_LEN` bytes or carries exactly one nickname. The length of the
names-line of a non-empty batch is `baseLen + joinedLen(batch)`, with `baseLen`
the length of the names-line without nicknames, the line the code measures. -/
theorem NamesReply_Format_bounded_but_last (channel : Channel) (client : Client)
    (MAX_REPLY_LEN : Int) (a : GoString) (rest : List GoString) :
    (∃ batches : List (List GoString),
      NamesReply.Format MAX_REPLY_LEN (NewNamesReply channel) client
        = some (batches.map (namesLine channel.server.Id client.Nick channel.name)
            ++ [endOfNamesLine channel.server.Id client.Nick channel.name])
      ∧ batches.flatten = channel.Nicks
      ∧ ∀ b ∈ batches.dropLast,
          len (namesLine channel.server.Id client.Nick channel.name b) ≤ MAX_REPLY_LEN
          ∨ b.length = 1)
    ∧ len (namesLine channel.server.Id client.Nick channel.name (a :: rest))
      = len (namesLine channel.server.Id client.Nick channel.name []) + joinedLen (a :: rest)
    ∧ (RplNamReply channel []).Format client
      = [namesLine channel.server.Id client.Nick channel.name []] := by
  refine ⟨?_, ?_, rplNamReply_format channel [] client⟩
  · obtain ⟨batches, hrun, hcov, hne, hfit, _⟩ := format_greedy channel client MAX_REPLY_LEN
    refine ⟨batches, hrun, hcov, ?_⟩
    intro b hb
    rcases hfit b hb with h1 | hf
    · exact Or.inr h1
    · left
      have hbne : b ≠ [] := hne b (List.dropLast_subset _ hb)
      by_contra hgt
      have hlong := (tooLong_iff_line MAX_REPLY_LEN channel.server.Id client.Nick channel.name
        b hbne).mpr (by omega)
      rw [hf] at hlong
      exact absurd hlong (by simp)
  · rw [len_namesLine, joinedLen_eq_len_Join _ (by simp)]

end Irc
